import Mathlib

/-!
Verification of the procedural graph-generation engine of the
experiment-proton-hero-brain repository.

The engine consists of three variants sharing one generation pattern:

* `neuron-graph.tsx` — seeded node placement (clustered / uniform-with-rejection)
  and all-pairs-within-threshold connections;
* the cube-graph component — seeded clustered cube placement and
  closest-pair-between-groups connections;
* `brain-graph/utils.ts` — branch growth by constrained random walk with radius
  normalization and clipping, orchestrated by `generateBrainGraph`.

Modelling conventions:

* JavaScript numbers are modelled by `ℚ` where the computation stays inside
  field operations (node placement, distance checks), and by `ℝ` where the
  source applies square roots and trigonometry (branch growth and shaping).
  Floating-point rounding is not modelled.
* The seeded sine-hash `seededRandom` of the source is a fixed function of its
  offset; since `Real.sin` is noncomputable, placement functions take the hash
  abstractly as a parameter `sr : ℚ → ℚ`, and the properties proved hold for
  every such function.  The constant `2 * Math.PI` multiplying the three
  rotation randoms is likewise passed as a parameter `twoPi`; no claim depends
  on its value.
* `Math.random()` (used, unseeded, throughout `brain-graph/utils.ts`) is
  modelled as an ambient stream `r : ℕ → ℝ` of draws together with a counter
  that every consumer threads: each draw reads `r n` and advances to `n + 1`.
* The source compares Euclidean distances (`distanceTo`, `length()`); over `ℚ`
  the comparisons are embedded as the equivalent squared-distance Boolean tests
  (`tooClose`, `withinDist`), and the lemmas `tooClose_eq_true_iff` /
  `withinDist_eq_true_iff` prove the equivalence with the real square-root
  reading used by the theorem statements.
* Loop counts coming from configuration fields are `ℤ`; a JavaScript loop
  `for (let i = 0; i < n; i++)` runs `n.toNat` iterations, which matches the
  source for every integer `n`, including negative ones (zero iterations).
-/

namespace BrainSpec

/-- Three-component vector mirroring `THREE.Vector3`, generic over the scalar
type (`ℚ` for the placement layer, `ℝ` for the branch-growth layer). -/
@[ext]
structure Vec3 (α : Type) where
  x : α
  y : α
  z : α
deriving DecidableEq, Repr

namespace Vec3

/-- Componentwise addition, `Vector3.add`. -/
def add {α : Type} [Add α] (v w : Vec3 α) : Vec3 α :=
  ⟨v.x + w.x, v.y + w.y, v.z + w.z⟩

/-- Componentwise subtraction, `Vector3.sub`. -/
def sub {α : Type} [Sub α] (v w : Vec3 α) : Vec3 α :=
  ⟨v.x - w.x, v.y - w.y, v.z - w.z⟩

/-- Scalar multiplication, `Vector3.multiplyScalar`. -/
def smul {α : Type} [Mul α] (c : α) (v : Vec3 α) : Vec3 α :=
  ⟨c * v.x, c * v.y, c * v.z⟩

/-- Dot product, `Vector3.dot`. -/
def dot {α : Type} [Mul α] [Add α] (v w : Vec3 α) : α :=
  v.x * w.x + v.y * w.y + v.z * w.z

/-- Cross product, `Vector3.cross`. -/
def cross {α : Type} [Mul α] [Sub α] (v w : Vec3 α) : Vec3 α :=
  ⟨v.y * w.z - v.z * w.y, v.z * w.x - v.x * w.z, v.x * w.y - v.y * w.x⟩

/-- Squared Euclidean norm, `Vector3.lengthSq`. -/
def normSq {α : Type} [Mul α] [Add α] (v : Vec3 α) : α :=
  v.x * v.x + v.y * v.y + v.z * v.z

/-- Squared distance between two points, `lengthSq` of the difference;
`Vector3.distanceToSquared`. -/
def distSq {α : Type} [Mul α] [Add α] [Sub α] (v w : Vec3 α) : α :=
  normSq (sub v w)

theorem distSq_nonneg (p q : Vec3 ℚ) : 0 ≤ distSq p q := by
  have hx := mul_self_nonneg ((sub p q).x)
  have hy := mul_self_nonneg ((sub p q).y)
  have hz := mul_self_nonneg ((sub p q).z)
  unfold distSq normSq
  linarith

theorem distSq_comm (p q : Vec3 ℚ) : distSq p q = distSq q p := by
  unfold distSq normSq sub
  ring_nf

end Vec3

/-! ### Squared-distance comparisons

The source tests `candidatePosition.distanceTo(usedPos) < separation * 0.8`
(placement) and `distance <= maxConnectionDistance` (connections) on real
square-root distances.  Over `ℚ` we embed the two tests by the equivalent
squared comparisons; `tooClose_eq_true_iff` and `withinDist_eq_true_iff`
establish that they agree with the square-root reading. -/

/-- Boolean form of `dist p q < t` (the rejection test of the placer):
equivalent to `Real.sqrt (distSq p q) < t`, see `tooClose_eq_true_iff`. -/
def tooClose (p q : Vec3 ℚ) (t : ℚ) : Bool :=
  decide (0 < t) && decide (Vec3.distSq p q < t * t)

/-- Boolean form of `dist p q ≤ d` (the connection-threshold test):
equivalent to `Real.sqrt (distSq p q) ≤ d`, see `withinDist_eq_true_iff`. -/
def withinDist (p q : Vec3 ℚ) (d : ℚ) : Bool :=
  decide (0 ≤ d) && decide (Vec3.distSq p q ≤ d * d)

/-- Euclidean distance between two rational points, read in `ℝ`; this is the
`candidatePosition.distanceTo(usedPos)` of the source. -/
noncomputable def rdist (p q : Vec3 ℚ) : ℝ :=
  Real.sqrt ((Vec3.distSq p q : ℚ) : ℝ)

theorem rdist_nonneg (p q : Vec3 ℚ) : 0 ≤ rdist p q :=
  Real.sqrt_nonneg _

theorem tooClose_eq_true_iff (p q : Vec3 ℚ) (t : ℚ) :
    tooClose p q t = true ↔ rdist p q < (t : ℝ) := by
  unfold tooClose rdist
  rcases le_or_lt t 0 with h | h
  · constructor
    · intro hb
      simp only [Bool.and_eq_true, decide_eq_true_eq] at hb
      exact absurd hb.1 (not_lt.mpr h)
    · intro hb
      have : (0 : ℝ) ≤ Real.sqrt ((Vec3.distSq p q : ℚ) : ℝ) := Real.sqrt_nonneg _
      have ht : ((t : ℚ) : ℝ) ≤ 0 := by exact_mod_cast h
      linarith
  · have ht : (0 : ℝ) < ((t : ℚ) : ℝ) := by exact_mod_cast h
    rw [Real.sqrt_lt' ht, pow_two]
    simp only [Bool.and_eq_true, decide_eq_true_eq]
    constructor
    · rintro ⟨-, hd⟩
      have : ((Vec3.distSq p q : ℚ) : ℝ) < ((t * t : ℚ) : ℝ) := by exact_mod_cast hd
      push_cast at this
      exact this
    · intro hd
      refine ⟨h, ?_⟩
      exact_mod_cast hd

theorem withinDist_eq_true_iff (p q : Vec3 ℚ) (d : ℚ) :
    withinDist p q d = true ↔ rdist p q ≤ (d : ℝ) := by
  unfold withinDist rdist
  rw [Real.sqrt_le_iff, pow_two]
  simp only [Bool.and_eq_true, decide_eq_true_eq]
  constructor
  · rintro ⟨h0, hd⟩
    refine ⟨by exact_mod_cast h0, ?_⟩
    have h2 : ((Vec3.distSq p q : ℚ) : ℝ) ≤ ((d * d : ℚ) : ℝ) := by exact_mod_cast hd
    push_cast at h2
    exact h2
  · rintro ⟨h0, hd⟩
    refine ⟨by exact_mod_cast h0, ?_⟩
    have h2 : ((Vec3.distSq p q : ℚ) : ℝ) ≤ ((d : ℚ) : ℝ) * ((d : ℚ) : ℝ) := hd
    exact_mod_cast h2

/-- Contrapositive form used by the separation invariant: a candidate that
passes the rejection test is at real distance at least `t` from the tested
point. -/
theorem rdist_ge_of_not_tooClose {p q : Vec3 ℚ} {t : ℚ}
    (h : tooClose p q t = false) : (t : ℝ) ≤ rdist p q := by
  by_contra hlt
  have := (tooClose_eq_true_iff p q t).mpr (not_le.mp hlt)
  rw [h] at this
  exact Bool.false_ne_true this

/-! ### CurveSampler progress values

`BranchLine` (brain-graph.tsx) and `lineGeometry` (neuron-graph.tsx) assign
`progress[i] = i / (points.length - 1)` to the `i`-th resampled point. -/

/-- Progress values attached to a sampled point sequence of `n` points:
`progress[i] = i / (n - 1)` for `i = 0 … n-1`. -/
def branchProgress (n : ℕ) : List ℚ :=
  (List.range n).map (fun i : ℕ => (i : ℚ) / ((n : ℚ) - 1))

/-- C7: for every branch's sampled point sequence of `n ≥ 2` points, the
assigned progress values `i / (n - 1)` are strictly increasing along the
sequence, the first value equals 0 and the last value equals 1. -/
theorem branchProgress_strictMono_first_last (n : ℕ) (h : 2 ≤ n) :
    (branchProgress n).Pairwise (· < ·) ∧
    (branchProgress n).head? = some 0 ∧
    (branchProgress n).getLast? = some 1 := by
  have hpos : (0 : ℚ) < (n : ℚ) - 1 := by
    have : (2 : ℚ) ≤ (n : ℚ) := by exact_mod_cast h
    linarith
  refine ⟨?_, ?_, ?_⟩
  · refine List.Pairwise.map (fun i : ℕ => (i : ℚ) / ((n : ℚ) - 1))
      (fun a b hab => ?_) (List.pairwise_lt_range n)
    exact div_lt_div_of_pos_right (by exact_mod_cast hab) hpos
  · obtain ⟨m, rfl⟩ : ∃ m, n = m + 2 := ⟨n - 2, by omega⟩
    simp [branchProgress, List.range_succ_eq_map]
  · obtain ⟨m, rfl⟩ : ∃ m, n = m + 2 := ⟨n - 2, by omega⟩
    show ((List.range ((m + 1) + 1)).map _).getLast? = some 1
    rw [List.range_succ, List.map_append]
    simp only [List.map_cons, List.map_nil, List.getLast?_concat, Option.some.injEq]
    have hne : ((m : ℚ) + 2) - 1 ≠ 0 := by
      linarith [(Nat.cast_nonneg m : (0 : ℚ) ≤ (m : ℚ))]
    field_simp
    ring

/-- Witness for C7 at `n = 3`. -/
theorem branchProgress_strictMono_first_last_witness :
    (branchProgress 3).Pairwise (· < ·) ∧
    (branchProgress 3).head? = some 0 ∧
    (branchProgress 3).getLast? = some 1 :=
  branchProgress_strictMono_first_last 3 (by decide)

/-! ### NodePlacer: uniform-with-rejection

Embedding of the `distribution === "uniform"` branch of `neuronPositions` in
neuron-graph.tsx.  The seeded hash is the abstract parameter `sr`; the factor
`2 * Math.PI` scaling the three rotation randoms is the parameter `twoPi`. -/

/-- Node record pushed by the placer:
`positions.push({ position, rotation, scale })`. -/
structure Neuron where
  position : Vec3 ℚ
  rotation : Vec3 ℚ
  scale : ℚ
deriving DecidableEq, Repr

theorem le_cube_self (t : ℕ) : t ≤ t * t * t := by
  rcases Nat.eq_zero_or_pos t with h | h
  · simp [h]
  · calc t = 1 * 1 * t := by ring
      _ ≤ t * t * t := Nat.mul_le_mul (Nat.mul_le_mul h h) (le_refl t)

/-- Grid dimension `Math.ceil(Math.cbrt(neuronCount))`: for an integer count
this is the least `k` with `k³ ≥ count` (and the value is irrelevant when
`count ≤ 0`, since the placement loop then runs zero times). -/
def gridSize (count : ℤ) : ℕ :=
  Nat.find (show ∃ k, count.toNat ≤ k * k * k from ⟨count.toNat, le_cube_self _⟩)

/-- Candidate position for node index `i`: jittered grid position.  The
JavaScript computes `gridY` as `Math.floor((i / gridSize) % gridSize)` with
real division and real `%`, which for natural `i`, `gridSize` agrees with the
natural-number `(i / g) % g` used here; likewise
`gridZ = Math.floor(i / (gridSize * gridSize)) = i / (g * g)`. -/
def candidate (sr : ℚ → ℚ) (separation : ℚ) (g : ℕ) (i : ℕ) : Vec3 ℚ :=
  let gridX : ℚ := (i % g : ℕ) - ((g : ℚ) - 1) * (1/2)
  let gridY : ℚ := ((i / g) % g : ℕ) - ((g : ℚ) - 1) * (1/2)
  let gridZ : ℚ := (i / (g * g) : ℕ) - ((g : ℚ) - 1) * (1/2)
  let randomOffset : ℚ := 3/10
  ⟨gridX * separation + (sr ((i : ℚ) * 10) - 1/2) * separation * randomOffset,
   gridY * separation + (sr ((i : ℚ) * 10 + 1) - 1/2) * separation * randomOffset,
   gridZ * separation + (sr ((i : ℚ) * 10 + 2) - 1/2) * separation * randomOffset⟩

/-- The `validPosition` check: the candidate is rejected when it is closer
than `separation * 0.8` to any previously accepted position. -/
def validPosition (cand : Vec3 ℚ) (used : List (Vec3 ℚ)) (separation : ℚ) : Bool :=
  used.all (fun u => ! tooClose cand u (separation * (8/10)))

/-- The capped rejection loop `while (!validPosition && attempts < 100)`, with
`fuel` the number of remaining attempts (100 at entry).  Each iteration
recomputes the candidate from `sr`, `separation`, `g`, `i` alone — the
attempt counter never enters the computation, exactly as in the source. -/
def placeAttempts (sr : ℚ → ℚ) (separation : ℚ) (g : ℕ) (i : ℕ)
    (used : List (Vec3 ℚ)) : ℕ → Option (Vec3 ℚ)
  | 0 => none
  | fuel + 1 =>
      let cand := candidate sr separation g i
      if validPosition cand used separation then some cand
      else placeAttempts sr separation g i used fuel

/-- Node record built for an accepted position: rotation components are
`seededRandom(i*20+k) * Math.PI * 2` (the constant is the `twoPi` parameter)
and the scale is `scale * (0.8 + seededRandom(i*30) * 0.4)`. -/
def mkNeuron (sr : ℚ → ℚ) (twoPi sc : ℚ) (i : ℕ) (pos : Vec3 ℚ) : Neuron :=
  { position := pos
  , rotation := ⟨sr ((i : ℚ) * 20) * twoPi, sr ((i : ℚ) * 20 + 1) * twoPi,
                 sr ((i : ℚ) * 20 + 2) * twoPi⟩
  , scale := sc * (8/10 + sr ((i : ℚ) * 30) * (4/10)) }

/-- Main placement loop over node indices, threading the accumulated
`usedPositions`. -/
def uniformLoop (sr : ℚ → ℚ) (separation sc twoPi : ℚ) (g : ℕ) :
    List ℕ → List (Vec3 ℚ) → List Neuron
  | [], _ => []
  | i :: rest, used =>
      match placeAttempts sr separation g i used 100 with
      | some pos =>
          mkNeuron sr twoPi sc i pos ::
            uniformLoop sr separation sc twoPi g rest (used ++ [pos])
      | none => uniformLoop sr separation sc twoPi g rest used

/-- The `distribution === "uniform"` branch of `neuronPositions`. -/
def neuronPositionsUniform (sr : ℚ → ℚ) (neuronCount : ℤ)
    (separation sc twoPi : ℚ) : List Neuron :=
  uniformLoop sr separation sc twoPi (gridSize neuronCount)
    (List.range neuronCount.toNat) []

theorem placeAttempts_some_valid {sr : ℚ → ℚ} {separation : ℚ} {g i : ℕ}
    {used : List (Vec3 ℚ)} {pos : Vec3 ℚ} :
    ∀ {fuel : ℕ}, placeAttempts sr separation g i used fuel = some pos →
      pos = candidate sr separation g i ∧ validPosition pos used separation = true := by
  intro fuel
  induction fuel with
  | zero => intro h; exact absurd h (by simp [placeAttempts])
  | succ fuel ih =>
      intro h
      rw [placeAttempts] at h
      by_cases hv : validPosition (candidate sr separation g i) used separation = true
      · rw [if_pos hv] at h
        obtain rfl : candidate sr separation g i = pos := by
          simpa using h
        exact ⟨rfl, hv⟩
      · rw [if_neg hv] at h
        exact ih h

theorem validPosition_rdist {cand : Vec3 ℚ} {used : List (Vec3 ℚ)} {separation : ℚ}
    (h : validPosition cand used separation = true) :
    ∀ u ∈ used, ((separation * (8/10) : ℚ) : ℝ) ≤ rdist cand u := by
  intro u hu
  have h1 := (List.all_eq_true.mp h) u hu
  have h2 : tooClose cand u (separation * (8/10)) = false := by
    simpa using h1
  exact rdist_ge_of_not_tooClose h2

theorem rdist_comm (p q : Vec3 ℚ) : rdist p q = rdist q p := by
  unfold rdist
  rw [Vec3.distSq_comm]

theorem uniformLoop_separation_inv (sr : ℚ → ℚ) (separation sc twoPi : ℚ) (g : ℕ) :
    ∀ (idx : List ℕ) (used : List (Vec3 ℚ)),
      (∀ v ∈ uniformLoop sr separation sc twoPi g idx used, ∀ u ∈ used,
          ((separation * (8/10) : ℚ) : ℝ) ≤ rdist u v.position) ∧
      ((uniformLoop sr separation sc twoPi g idx used).map Neuron.position).Pairwise
        (fun p q => ((separation * (8/10) : ℚ) : ℝ) ≤ rdist p q) := by
  intro idx
  induction idx with
  | nil => intro used; simp [uniformLoop]
  | cons i rest ih =>
      intro used
      rw [uniformLoop]
      rcases hplace : placeAttempts sr separation g i used 100 with _ | pos
      · exact ih used
      · obtain ⟨-, hvalid⟩ := placeAttempts_some_valid hplace
        have hfar : ∀ u ∈ used, ((separation * (8/10) : ℚ) : ℝ) ≤ rdist pos u :=
          validPosition_rdist hvalid
        obtain ⟨ih1, ih2⟩ := ih (used ++ [pos])
        constructor
        · intro v hv u hu
          rcases List.mem_cons.mp hv with rfl | hv'
          · rw [rdist_comm]
            exact hfar u hu
          · exact ih1 v hv' u (List.mem_append_left _ hu)
        · rw [List.map_cons]
          refine List.Pairwise.cons ?_ ih2
          intro q hq
          obtain ⟨w, hw, rfl⟩ := List.mem_map.mp hq
          have := ih1 w hw pos (List.mem_append_right _ (List.mem_singleton_self _))
          simpa [mkNeuron] using this

/-- C2: for every uniform-with-rejection placement run with minimum separation
`s`, every pair of distinct accepted node positions in the result is at
Euclidean distance at least `0.8 * s` — here stated as: the accepted position
list is pairwise at real distance at least `s * 0.8`, for every seeded hash
`sr`, count, separation, scale and rotation constant. -/
theorem neuronPositionsUniform_separation (sr : ℚ → ℚ) (neuronCount : ℤ)
    (separation sc twoPi : ℚ) :
    ((neuronPositionsUniform sr neuronCount separation sc twoPi).map
        Neuron.position).Pairwise
      (fun p q => ((separation * (8/10) : ℚ) : ℝ) ≤ rdist p q) :=
  (uniformLoop_separation_inv sr separation sc twoPi (gridSize neuronCount)
    (List.range neuronCount.toNat) []).2

/-! ### C10: the rejection loop as a single-pass filter

Modelled from the claim: a placer that computes node `i`'s one candidate,
accepts it exactly when it is at (real) distance at least `0.8 * separation`
from every previously accepted node, and omits the node otherwise. -/

open Classical in
/-- Single-pass filter placement loop described by C10 (spec-side definition;
the acceptance test is the claim's real-distance condition). -/
noncomputable def singlePassLoop (sr : ℚ → ℚ) (separation sc twoPi : ℚ) (g : ℕ) :
    List ℕ → List (Vec3 ℚ) → List Neuron
  | [], _ => []
  | i :: rest, used =>
      let cand := candidate sr separation g i
      if ∀ u ∈ used, ((separation * (8/10) : ℚ) : ℝ) ≤ rdist cand u then
        mkNeuron sr twoPi sc i cand ::
          singlePassLoop sr separation sc twoPi g rest (used ++ [cand])
      else singlePassLoop sr separation sc twoPi g rest used

/-- Single-pass filter placement described by C10 (spec-side definition). -/
noncomputable def singlePassPlacement (sr : ℚ → ℚ) (neuronCount : ℤ)
    (separation sc twoPi : ℚ) : List Neuron :=
  singlePassLoop sr separation sc twoPi (gridSize neuronCount)
    (List.range neuronCount.toNat) []

theorem validPosition_eq_true_iff (cand : Vec3 ℚ) (used : List (Vec3 ℚ))
    (separation : ℚ) :
    validPosition cand used separation = true ↔
      ∀ u ∈ used, ((separation * (8/10) : ℚ) : ℝ) ≤ rdist cand u := by
  constructor
  · exact validPosition_rdist
  · intro h
    rw [validPosition, List.all_eq_true]
    intro u hu
    have hf : tooClose cand u (separation * (8/10)) = false := by
      rcases Bool.eq_false_or_eq_true (tooClose cand u (separation * (8/10))) with ht | hf
      · have := (tooClose_eq_true_iff cand u (separation * (8/10))).mp ht
        exact absurd (h u hu) (not_le.mpr this)
      · exact hf
    simp [hf]

theorem placeAttempts_succ_eq (sr : ℚ → ℚ) (separation : ℚ) (g i : ℕ)
    (used : List (Vec3 ℚ)) (fuel : ℕ) :
    placeAttempts sr separation g i used (fuel + 1) =
      if validPosition (candidate sr separation g i) used separation
      then some (candidate sr separation g i) else none := by
  induction fuel with
  | zero =>
      rw [placeAttempts]
      by_cases hv : validPosition (candidate sr separation g i) used separation = true
      · rw [if_pos hv, if_pos hv]
      · rw [if_neg hv, if_neg hv, placeAttempts]
  | succ fuel ih =>
      rw [placeAttempts]
      by_cases hv : validPosition (candidate sr separation g i) used separation = true
      · rw [if_pos hv, if_pos hv]
      · rw [if_neg hv, if_neg hv, ih, if_neg hv]

theorem uniformLoop_eq_singlePassLoop (sr : ℚ → ℚ) (separation sc twoPi : ℚ)
    (g : ℕ) : ∀ (idx : List ℕ) (used : List (Vec3 ℚ)),
    uniformLoop sr separation sc twoPi g idx used =
      singlePassLoop sr separation sc twoPi g idx used := by
  intro idx
  induction idx with
  | nil => intro used; rw [uniformLoop, singlePassLoop]
  | cons i rest ih =>
      intro used
      rw [uniformLoop, singlePassLoop, placeAttempts_succ_eq]
      by_cases hv : validPosition (candidate sr separation g i) used separation = true
      · rw [if_pos hv, if_pos ((validPosition_eq_true_iff _ _ _).mp hv)]
        exact congrArg _ (ih (used ++ [candidate sr separation g i]))
      · rw [if_neg hv,
            if_neg (fun hc => hv ((validPosition_eq_true_iff _ _ _).mpr hc))]
        exact ih used

/-- C10: the candidate for node `i` does not depend on the attempt counter, so
the 100-attempt rejection loop is equivalent to the single-pass filter that
accepts node `i` exactly when its one candidate is at distance at least
`0.8 * separation` from every previously accepted node and omits it
otherwise. -/
theorem neuronPositionsUniform_eq_singlePass (sr : ℚ → ℚ) (neuronCount : ℤ)
    (separation sc twoPi : ℚ) :
    neuronPositionsUniform sr neuronCount separation sc twoPi =
      singlePassPlacement sr neuronCount separation sc twoPi :=
  uniformLoop_eq_singlePassLoop sr separation sc twoPi (gridSize neuronCount)
    (List.range neuronCount.toNat) []

/-! ### ConnectionFinder, mode 1: all pairs within threshold

Embedding of the `connections` useMemo of neuron-graph.tsx: for `i < j`, a
connection is pushed whenever `positions[i].distanceTo(positions[j]) <=
maxConnectionDistance`. -/

/-- Connection record of mode 1: the two endpoint positions
(`conns.push({ start, end })`). -/
structure Connection where
  start : Vec3 ℚ
  endPoint : Vec3 ℚ
deriving DecidableEq, Repr

/-- The `i < j` double loop of the `connections` useMemo, as a recursion on
the position list: the head is paired with every later element, then the tail
is processed. -/
def connectionsAllPairs : List (Vec3 ℚ) → ℚ → List Connection
  | [], _ => []
  | p :: rest, maxD =>
      rest.filterMap
        (fun q => if withinDist p q maxD then some ⟨p, q⟩ else none)
      ++ connectionsAllPairs rest maxD

/-- The `connections` useMemo: empty when `showConnections` is off, otherwise
all pairs within `maxConnectionDistance`. -/
def connections (showConnections : Bool) (positions : List (Vec3 ℚ))
    (maxD : ℚ) : List Connection :=
  if showConnections then connectionsAllPairs positions maxD else []

theorem mem_connectionsAllPairs_within {positions : List (Vec3 ℚ)} {maxD : ℚ} :
    ∀ c ∈ connectionsAllPairs positions maxD,
      withinDist c.start c.endPoint maxD = true := by
  induction positions with
  | nil => intro c hc; exact absurd hc (by simp [connectionsAllPairs])
  | cons p rest ih =>
      intro c hc
      rw [connectionsAllPairs] at hc
      rcases List.mem_append.mp hc with hc1 | hc2
      · obtain ⟨q, -, hq2⟩ := List.mem_filterMap.mp hc1
        by_cases hw : withinDist p q maxD = true
        · rw [if_pos hw] at hq2
          obtain rfl : Connection.mk p q = c := by simpa using hq2
          exact hw
        · rw [if_neg hw] at hq2
          exact absurd hq2 (by simp)
      · exact ih c hc2

/-! ### ConnectionFinder, mode 2: closest pair between groups

Embedding of the `connections` useMemo of the CubeGraph component: for every
ordered pair of groups `i < j`, the single closest node pair across the two
groups with distance ≤ `maxConnectionDistance` is kept (strict `<` on the
running minimum, so the first minimal pair in scan order wins). -/

/-- The running `closestPair` record of the scan; `dSq` is the squared
distance of the pair (the source stores the square-root distance and compares
with `<`, which is order-isomorphic to comparing the squares). -/
structure BestPair where
  start : Vec3 ℚ
  endPoint : Vec3 ℚ
  startNodeIndex : ℕ
  endNodeIndex : ℕ
  dSq : ℚ
deriving DecidableEq, Repr

/-- Connection record of mode 2: endpoint positions plus the
(group, node-index) identifiers of both endpoints. -/
structure CubeConnection where
  start : Vec3 ℚ
  endPoint : Vec3 ℚ
  startCubeIndex : ℕ
  startNodeIndex : ℕ
  endCubeIndex : ℕ
  endNodeIndex : ℕ
deriving DecidableEq, Repr

/-- Loop body of the closest-pair scan:
`if (distance <= maxD) { if (!closestPair || distance < closestPair.distance) update }`. -/
def considerPair (maxD : ℚ) (iI : ℕ) (nI : Vec3 ℚ) (iJ : ℕ) (nJ : Vec3 ℚ)
    (acc : Option BestPair) : Option BestPair :=
  if withinDist nI nJ maxD then
    match acc with
    | none => some ⟨nI, nJ, iI, iJ, Vec3.distSq nI nJ⟩
    | some b =>
        if Vec3.distSq nI nJ < b.dSq then some ⟨nI, nJ, iI, iJ, Vec3.distSq nI nJ⟩
        else some b
  else acc

/-- Inner loop over `cubeData[j].nodePositions`, with `iJ` the running node
index. -/
def innerScan (maxD : ℚ) (iI : ℕ) (nI : Vec3 ℚ) :
    ℕ → List (Vec3 ℚ) → Option BestPair → Option BestPair
  | _, [], acc => acc
  | iJ, nJ :: rest, acc =>
      innerScan maxD iI nI (iJ + 1) rest (considerPair maxD iI nI iJ nJ acc)

/-- Outer loop over `cubeData[i].nodePositions`, with `iI` the running node
index. -/
def outerScan (maxD : ℚ) (gJ : List (Vec3 ℚ)) :
    ℕ → List (Vec3 ℚ) → Option BestPair → Option BestPair
  | _, [], acc => acc
  | iI, nI :: rest, acc =>
      outerScan maxD gJ (iI + 1) rest (innerScan maxD iI nI 0 gJ acc)

/-- Closest node pair between two groups within the threshold, `none` when no
pair qualifies. -/
def closestPairBetween (gI gJ : List (Vec3 ℚ)) (maxD : ℚ) : Option BestPair :=
  outerScan maxD gJ 0 gI none

/-- Inner group loop (`for j = i + 1 …`): `j` is the index of the first group
in `gs`, which is the suffix of the group list after group `i`. -/
def pairsFrom (maxD : ℚ) (i : ℕ) (gI : List (Vec3 ℚ)) :
    ℕ → List (List (Vec3 ℚ)) → List CubeConnection
  | _, [] => []
  | j, gJ :: rest =>
      (match closestPairBetween gI gJ maxD with
       | some b => [⟨b.start, b.endPoint, i, b.startNodeIndex, j, b.endNodeIndex⟩]
       | none => [])
      ++ pairsFrom maxD i gI (j + 1) rest

/-- Outer group loop (`for i = 0 …`): `i` is the index of the first group in
`gs`. -/
def cubeConnectionsFrom (maxD : ℚ) : ℕ → List (List (Vec3 ℚ)) → List CubeConnection
  | _, [] => []
  | i, gI :: rest =>
      pairsFrom maxD i gI (i + 1) rest ++ cubeConnectionsFrom maxD (i + 1) rest

/-- The closest-pair-between-groups connection finder of the CubeGraph
component, over the list of per-cube node-position groups. -/
def cubeConnections (groups : List (List (Vec3 ℚ))) (maxD : ℚ) :
    List CubeConnection :=
  cubeConnectionsFrom maxD 0 groups

/-- Well-formedness of a running `closestPair` record relative to the two
scanned groups: endpoints are members, the pair qualifies for the threshold,
and `dSq` is its squared distance. -/
def GoodPair (gI gJ : List (Vec3 ℚ)) (maxD : ℚ) (b : BestPair) : Prop :=
  b.start ∈ gI ∧ b.endPoint ∈ gJ ∧ withinDist b.start b.endPoint maxD = true ∧
    b.dSq = Vec3.distSq b.start b.endPoint

theorem considerPair_good {gI gJ : List (Vec3 ℚ)} {maxD : ℚ} {iI iJ : ℕ}
    {nI nJ : Vec3 ℚ} {acc : Option BestPair}
    (hacc : ∀ a, acc = some a → GoodPair gI gJ maxD a)
    (hI : nI ∈ gI) (hJ : nJ ∈ gJ) :
    ∀ b, considerPair maxD iI nI iJ nJ acc = some b → GoodPair gI gJ maxD b := by
  intro b hb
  unfold considerPair at hb
  by_cases hw : withinDist nI nJ maxD = true
  · rw [if_pos hw] at hb
    rcases acc with _ | a
    · obtain rfl : BestPair.mk nI nJ iI iJ (Vec3.distSq nI nJ) = b := by simpa using hb
      exact ⟨hI, hJ, hw, rfl⟩
    · replace hb : (if Vec3.distSq nI nJ < a.dSq
          then some (BestPair.mk nI nJ iI iJ (Vec3.distSq nI nJ))
          else some a) = some b := hb
      by_cases hlt : Vec3.distSq nI nJ < a.dSq
      · rw [if_pos hlt] at hb
        obtain rfl : BestPair.mk nI nJ iI iJ (Vec3.distSq nI nJ) = b := by simpa using hb
        exact ⟨hI, hJ, hw, rfl⟩
      · rw [if_neg hlt] at hb
        obtain rfl : a = b := by simpa using hb
        exact hacc _ rfl
  · rw [if_neg hw] at hb
    exact hacc b hb

theorem considerPair_mono {maxD : ℚ} {iI iJ : ℕ} {nI nJ : Vec3 ℚ}
    {acc : Option BestPair} {a : BestPair} (hacc : acc = some a) :
    ∃ b, considerPair maxD iI nI iJ nJ acc = some b ∧ b.dSq ≤ a.dSq := by
  subst hacc
  unfold considerPair
  by_cases hw : withinDist nI nJ maxD = true
  · rw [if_pos hw]
    show ∃ b, (if Vec3.distSq nI nJ < a.dSq
        then some (BestPair.mk nI nJ iI iJ (Vec3.distSq nI nJ))
        else some a) = some b ∧ b.dSq ≤ a.dSq
    by_cases hlt : Vec3.distSq nI nJ < a.dSq
    · rw [if_pos hlt]
      exact ⟨_, rfl, le_of_lt hlt⟩
    · rw [if_neg hlt]
      exact ⟨a, rfl, le_refl _⟩
  · rw [if_neg hw]
    exact ⟨a, rfl, le_refl _⟩

theorem considerPair_cover {maxD : ℚ} {iI iJ : ℕ} {nI nJ : Vec3 ℚ}
    {acc : Option BestPair} (hw : withinDist nI nJ maxD = true) :
    ∃ b, considerPair maxD iI nI iJ nJ acc = some b ∧
      b.dSq ≤ Vec3.distSq nI nJ := by
  unfold considerPair
  rw [if_pos hw]
  rcases acc with _ | a
  · exact ⟨_, rfl, le_refl _⟩
  · show ∃ b, (if Vec3.distSq nI nJ < a.dSq
        then some (BestPair.mk nI nJ iI iJ (Vec3.distSq nI nJ))
        else some a) = some b ∧ b.dSq ≤ Vec3.distSq nI nJ
    by_cases hlt : Vec3.distSq nI nJ < a.dSq
    · rw [if_pos hlt]
      exact ⟨_, rfl, le_refl _⟩
    · rw [if_neg hlt]
      exact ⟨a, rfl, le_of_not_lt hlt⟩

theorem considerPair_far {maxD : ℚ} {iI iJ : ℕ} {nI nJ : Vec3 ℚ}
    {acc : Option BestPair} (hw : withinDist nI nJ maxD = false) :
    considerPair maxD iI nI iJ nJ acc = acc := by
  unfold considerPair
  rw [if_neg (by simp [hw])]

theorem innerScan_good {gI gJ : List (Vec3 ℚ)} {maxD : ℚ} {nI : Vec3 ℚ}
    (hI : nI ∈ gI) :
    ∀ (l : List (Vec3 ℚ)), (∀ x ∈ l, x ∈ gJ) → ∀ (iI iJ : ℕ) (acc : Option BestPair),
      (∀ a, acc = some a → GoodPair gI gJ maxD a) →
      ∀ b, innerScan maxD iI nI iJ l acc = some b → GoodPair gI gJ maxD b := by
  intro l
  induction l with
  | nil => intro _ iI iJ acc hacc b hb; exact hacc b hb
  | cons q rest ih =>
      intro hsub iI iJ acc hacc b hb
      rw [innerScan] at hb
      exact ih (fun x hx => hsub x (List.mem_cons_of_mem _ hx)) iI (iJ + 1) _
        (considerPair_good hacc hI (hsub q (List.mem_cons_self _ _))) b hb

theorem innerScan_mono {maxD : ℚ} {nI : Vec3 ℚ} :
    ∀ (l : List (Vec3 ℚ)) (iI iJ : ℕ) (acc : Option BestPair) (a : BestPair),
      acc = some a →
      ∃ b, innerScan maxD iI nI iJ l acc = some b ∧ b.dSq ≤ a.dSq := by
  intro l
  induction l with
  | nil => intro iI iJ acc a hacc; exact ⟨a, by rw [innerScan, hacc], le_refl _⟩
  | cons q rest ih =>
      intro iI iJ acc a hacc
      obtain ⟨b1, hb1, hle1⟩ := @considerPair_mono maxD iI iJ nI q acc a hacc
      obtain ⟨b, hb, hle⟩ := ih iI (iJ + 1) _ b1 hb1
      exact ⟨b, by rw [innerScan]; exact hb, le_trans hle hle1⟩

theorem innerScan_cover {maxD : ℚ} {nI : Vec3 ℚ} :
    ∀ (l : List (Vec3 ℚ)) (iI iJ : ℕ) (acc : Option BestPair),
      ∀ q ∈ l, withinDist nI q maxD = true →
      ∃ b, innerScan maxD iI nI iJ l acc = some b ∧
        b.dSq ≤ Vec3.distSq nI q := by
  intro l
  induction l with
  | nil => intro iI iJ acc q hq; exact absurd hq (List.not_mem_nil _)
  | cons q0 rest ih =>
      intro iI iJ acc q hq hw
      rcases List.mem_cons.mp hq with rfl | hq'
      · obtain ⟨b1, hb1, hle1⟩ := @considerPair_cover maxD iI iJ nI _ acc hw
        obtain ⟨b, hb, hle⟩ := innerScan_mono rest iI (iJ + 1) _ b1 hb1
        exact ⟨b, by rw [innerScan]; exact hb, le_trans hle hle1⟩
      · obtain ⟨b, hb, hle⟩ := ih iI (iJ + 1) (considerPair maxD iI nI iJ q0 acc) q hq' hw
        exact ⟨b, by rw [innerScan]; exact hb, hle⟩

theorem outerScan_good {gI gJ : List (Vec3 ℚ)} {maxD : ℚ} :
    ∀ (l : List (Vec3 ℚ)), (∀ x ∈ l, x ∈ gI) → ∀ (iI : ℕ) (acc : Option BestPair),
      (∀ a, acc = some a → GoodPair gI gJ maxD a) →
      ∀ b, outerScan maxD gJ iI l acc = some b → GoodPair gI gJ maxD b := by
  intro l
  induction l with
  | nil => intro _ iI acc hacc b hb; exact hacc b hb
  | cons p rest ih =>
      intro hsub iI acc hacc b hb
      rw [outerScan] at hb
      refine ih (fun x hx => hsub x (List.mem_cons_of_mem _ hx)) (iI + 1) _ ?_ b hb
      intro a ha
      exact innerScan_good (hsub p (List.mem_cons_self _ _)) gJ (fun x hx => hx)
        iI 0 acc hacc a ha

theorem outerScan_mono {maxD : ℚ} {gJ : List (Vec3 ℚ)} :
    ∀ (l : List (Vec3 ℚ)) (iI : ℕ) (acc : Option BestPair) (a : BestPair),
      acc = some a →
      ∃ b, outerScan maxD gJ iI l acc = some b ∧ b.dSq ≤ a.dSq := by
  intro l
  induction l with
  | nil => intro iI acc a hacc; exact ⟨a, by rw [outerScan, hacc], le_refl _⟩
  | cons p rest ih =>
      intro iI acc a hacc
      obtain ⟨b1, hb1, hle1⟩ := innerScan_mono gJ iI 0 acc a hacc
      obtain ⟨b, hb, hle⟩ := ih (iI + 1) _ b1 hb1
      exact ⟨b, by rw [outerScan]; exact hb, le_trans hle hle1⟩

theorem outerScan_cover {maxD : ℚ} {gJ : List (Vec3 ℚ)} :
    ∀ (l : List (Vec3 ℚ)) (iI : ℕ) (acc : Option BestPair),
      ∀ p ∈ l, ∀ q ∈ gJ, withinDist p q maxD = true →
      ∃ b, outerScan maxD gJ iI l acc = some b ∧
        b.dSq ≤ Vec3.distSq p q := by
  intro l
  induction l with
  | nil => intro iI acc p hp; exact absurd hp (List.not_mem_nil _)
  | cons p0 rest ih =>
      intro iI acc p hp q hq hw
      rcases List.mem_cons.mp hp with rfl | hp'
      · obtain ⟨b1, hb1, hle1⟩ := innerScan_cover gJ iI 0 acc q hq hw
        obtain ⟨b, hb, hle⟩ := outerScan_mono rest (iI + 1) _ b1 hb1
        exact ⟨b, by rw [outerScan]; exact hb, le_trans hle hle1⟩
      · obtain ⟨b, hb, hle⟩ := ih (iI + 1) (innerScan maxD iI p0 0 gJ acc) p hp' q hq hw
        exact ⟨b, by rw [outerScan]; exact hb, hle⟩

theorem closestPairBetween_good {gI gJ : List (Vec3 ℚ)} {maxD : ℚ} {b : BestPair}
    (hb : closestPairBetween gI gJ maxD = some b) : GoodPair gI gJ maxD b :=
  outerScan_good gI (fun _ hx => hx) 0 none (fun a ha => absurd ha (by simp)) b hb

theorem closestPairBetween_min {gI gJ : List (Vec3 ℚ)} {maxD : ℚ} {b : BestPair}
    (hb : closestPairBetween gI gJ maxD = some b) :
    ∀ p ∈ gI, ∀ q ∈ gJ, b.dSq ≤ Vec3.distSq p q := by
  intro p hp q hq
  by_cases hw : withinDist p q maxD = true
  · obtain ⟨b', hb', hle⟩ := outerScan_cover gI 0 none p hp q hq hw
    rw [closestPairBetween] at hb
    rw [hb] at hb'
    obtain rfl : b = b' := by simpa using hb'
    exact hle
  · obtain ⟨-, -, hbw, hbd⟩ := closestPairBetween_good hb
    rw [withinDist, Bool.and_eq_true, decide_eq_true_eq, decide_eq_true_eq] at hbw
    have hwf : ¬(0 ≤ maxD ∧ Vec3.distSq p q ≤ maxD * maxD) := by
      intro hcon
      apply hw
      rw [withinDist, Bool.and_eq_true, decide_eq_true_eq, decide_eq_true_eq]
      exact hcon
    have hfar : maxD * maxD < Vec3.distSq p q := by
      rcases not_and_or.mp hwf with h0 | hgt
      · exact absurd hbw.1 h0
      · exact lt_of_not_le hgt
    calc b.dSq = Vec3.distSq b.start b.endPoint := hbd
      _ ≤ maxD * maxD := hbw.2
      _ ≤ Vec3.distSq p q := le_of_lt hfar

theorem mem_pairsFrom {maxD : ℚ} {i : ℕ} {gI : List (Vec3 ℚ)} :
    ∀ (gs : List (List (Vec3 ℚ))) (j : ℕ) (c : CubeConnection),
      c ∈ pairsFrom maxD i gI j gs →
      c.startCubeIndex = i ∧ j ≤ c.endCubeIndex ∧
        ∃ gJ b, gs[c.endCubeIndex - j]? = some gJ ∧
          closestPairBetween gI gJ maxD = some b ∧
          c = ⟨b.start, b.endPoint, i, b.startNodeIndex, c.endCubeIndex,
                b.endNodeIndex⟩ := by
  intro gs
  induction gs with
  | nil => intro j c hc; exact absurd hc (by simp [pairsFrom])
  | cons gJ0 rest ih =>
      intro j c hc
      rw [pairsFrom] at hc
      rcases List.mem_append.mp hc with hc1 | hc2
      · rcases hcp : closestPairBetween gI gJ0 maxD with _ | b
        · rw [hcp] at hc1
          exact absurd hc1 (by simp)
        · rw [hcp] at hc1
          obtain rfl : c = CubeConnection.mk b.start b.endPoint i b.startNodeIndex j
              b.endNodeIndex := by simpa using hc1
          exact ⟨rfl, le_refl _, gJ0, b, by simp, hcp, rfl⟩
      · obtain ⟨h1, h2, gJ, b, h3, h4, h5⟩ := ih (j + 1) c hc2
        refine ⟨h1, le_trans (Nat.le_succ j) h2, gJ, b, ?_, h4, h5⟩
        have : c.endCubeIndex - j = (c.endCubeIndex - (j + 1)) + 1 := by omega
        rw [this, List.getElem?_cons_succ]
        exact h3

theorem mem_cubeConnectionsFrom {maxD : ℚ} :
    ∀ (gs : List (List (Vec3 ℚ))) (i : ℕ) (c : CubeConnection),
      c ∈ cubeConnectionsFrom maxD i gs →
      i ≤ c.startCubeIndex ∧ c.startCubeIndex < c.endCubeIndex ∧
        ∃ gI gJ b, gs[c.startCubeIndex - i]? = some gI ∧
          gs[c.endCubeIndex - i]? = some gJ ∧
          closestPairBetween gI gJ maxD = some b ∧
          c = ⟨b.start, b.endPoint, c.startCubeIndex, b.startNodeIndex,
                c.endCubeIndex, b.endNodeIndex⟩ := by
  intro gs
  induction gs with
  | nil => intro i c hc; exact absurd hc (by simp [cubeConnectionsFrom])
  | cons gI0 rest ih =>
      intro i c hc
      rw [cubeConnectionsFrom] at hc
      rcases List.mem_append.mp hc with hc1 | hc2
      · obtain ⟨h1, h2, gJ, b, h3, h4, h5⟩ := mem_pairsFrom rest (i + 1) c hc1
        refine ⟨le_of_eq h1.symm, by omega, gI0, gJ, b, ?_, ?_, h4, by rw [h1]; exact h5⟩
        · rw [h1]
          simp
        · have : c.endCubeIndex - i = (c.endCubeIndex - (i + 1)) + 1 := by omega
          rw [this, List.getElem?_cons_succ]
          exact h3
      · obtain ⟨h1, h2, gI, gJ, b, h3, h4, h5, h6⟩ := ih (i + 1) c hc2
        refine ⟨le_trans (Nat.le_succ i) h1, h2, gI, gJ, b, ?_, ?_, h5, h6⟩
        · have : c.startCubeIndex - i = (c.startCubeIndex - (i + 1)) + 1 := by omega
          rw [this, List.getElem?_cons_succ]
          exact h3
        · have : c.endCubeIndex - i = (c.endCubeIndex - (i + 1)) + 1 := by omega
          rw [this, List.getElem?_cons_succ]
          exact h4

theorem pairsFrom_endIdx_unique {maxD : ℚ} {i : ℕ} {gI : List (Vec3 ℚ)} :
    ∀ (gs : List (List (Vec3 ℚ))) (j : ℕ) (c₁ c₂ : CubeConnection),
      c₁ ∈ pairsFrom maxD i gI j gs → c₂ ∈ pairsFrom maxD i gI j gs →
      c₁.endCubeIndex = c₂.endCubeIndex → c₁ = c₂ := by
  intro gs
  induction gs with
  | nil => intro j c₁ c₂ hc₁; exact absurd hc₁ (by simp [pairsFrom])
  | cons gJ0 rest ih =>
      intro j c₁ c₂ hc₁ hc₂ he
      rw [pairsFrom] at hc₁ hc₂
      have hhead : ∀ c, (c ∈ match closestPairBetween gI gJ0 maxD with
          | some b => [CubeConnection.mk b.start b.endPoint i b.startNodeIndex j
              b.endNodeIndex]
          | none => []) → c.endCubeIndex = j := by
        intro c hc
        rcases hcp : closestPairBetween gI gJ0 maxD with _ | b
        · rw [hcp] at hc
          exact absurd hc (by simp)
        · rw [hcp] at hc
          obtain rfl : c = CubeConnection.mk b.start b.endPoint i b.startNodeIndex j
              b.endNodeIndex := by simpa using hc
          rfl
      rcases List.mem_append.mp hc₁ with h₁ | h₁ <;>
        rcases List.mem_append.mp hc₂ with h₂ | h₂
      · rcases hcp : closestPairBetween gI gJ0 maxD with _ | b
        · rw [hcp] at h₁
          exact absurd h₁ (by simp)
        · rw [hcp] at h₁ h₂
          have e₁ : c₁ = CubeConnection.mk b.start b.endPoint i b.startNodeIndex j
              b.endNodeIndex := by simpa using h₁
          have e₂ : c₂ = CubeConnection.mk b.start b.endPoint i b.startNodeIndex j
              b.endNodeIndex := by simpa using h₂
          rw [e₁, e₂]
      · have hj₁ : c₁.endCubeIndex = j := hhead c₁ h₁
        have hj₂ : j + 1 ≤ c₂.endCubeIndex := (mem_pairsFrom rest (j + 1) c₂ h₂).2.1
        omega
      · have hj₂ : c₂.endCubeIndex = j := hhead c₂ h₂
        have hj₁ : j + 1 ≤ c₁.endCubeIndex := (mem_pairsFrom rest (j + 1) c₁ h₁).2.1
        omega
      · exact ih (j + 1) c₁ c₂ h₁ h₂ he

theorem cubeConnectionsFrom_unique {maxD : ℚ} :
    ∀ (gs : List (List (Vec3 ℚ))) (i : ℕ) (c₁ c₂ : CubeConnection),
      c₁ ∈ cubeConnectionsFrom maxD i gs → c₂ ∈ cubeConnectionsFrom maxD i gs →
      c₁.startCubeIndex = c₂.startCubeIndex → c₁.endCubeIndex = c₂.endCubeIndex →
      c₁ = c₂ := by
  intro gs
  induction gs with
  | nil => intro i c₁ c₂ hc₁; exact absurd hc₁ (by simp [cubeConnectionsFrom])
  | cons gI0 rest ih =>
      intro i c₁ c₂ hc₁ hc₂ hs he
      rw [cubeConnectionsFrom] at hc₁ hc₂
      rcases List.mem_append.mp hc₁ with h₁ | h₁ <;>
        rcases List.mem_append.mp hc₂ with h₂ | h₂
      · exact pairsFrom_endIdx_unique rest (i + 1) c₁ c₂ h₁ h₂ he
      · have e₁ : c₁.startCubeIndex = i := (mem_pairsFrom rest (i + 1) c₁ h₁).1
        have e₂ : i + 1 ≤ c₂.startCubeIndex := (mem_cubeConnectionsFrom rest (i + 1) c₂ h₂).1
        omega
      · have e₂ : c₂.startCubeIndex = i := (mem_pairsFrom rest (i + 1) c₂ h₂).1
        have e₁ : i + 1 ≤ c₁.startCubeIndex := (mem_cubeConnectionsFrom rest (i + 1) c₁ h₁).1
        omega
      · exact ih (i + 1) c₁ c₂ h₁ h₂ hs he

theorem rdist_le_rdist_of_distSq_le {p q r s : Vec3 ℚ}
    (h : Vec3.distSq p q ≤ Vec3.distSq r s) : rdist p q ≤ rdist r s :=
  Real.sqrt_le_sqrt (by exact_mod_cast h)

/-- C3: every Connection produced by the connection finder — in
all-pairs-within-threshold mode (`connections` of the neuron graph) and in
closest-pair-between-groups mode (`cubeConnections` of the cube graph) — has
endpoint distance at most `maxConnectionDistance`. -/
theorem connections_distance_le_max (showConnections : Bool)
    (positions : List (Vec3 ℚ)) (groups : List (List (Vec3 ℚ))) (maxD : ℚ) :
    (∀ c ∈ connections showConnections positions maxD,
        rdist c.start c.endPoint ≤ (maxD : ℝ)) ∧
    (∀ c ∈ cubeConnections groups maxD,
        rdist c.start c.endPoint ≤ (maxD : ℝ)) := by
  constructor
  · intro c hc
    rw [connections] at hc
    cases showConnections with
    | false => exact absurd hc (by simp)
    | true =>
        rw [if_pos rfl] at hc
        exact (withinDist_eq_true_iff _ _ _).mp
          (mem_connectionsAllPairs_within c hc)
  · intro c hc
    obtain ⟨-, -, gI, gJ, b, -, -, h5, h6⟩ :=
      mem_cubeConnectionsFrom groups 0 c hc
    have hg := closestPairBetween_good h5
    have hcs : c.start = b.start := by rw [h6]
    have hce : c.endPoint = b.endPoint := by rw [h6]
    rw [hcs, hce]
    exact (withinDist_eq_true_iff _ _ _).mp hg.2.2.1

/-- Witness for C3: in a two-node run with threshold 2, the produced
connection's endpoints are at distance at most 2 (both modes exercised through
mode 1 and, via the C4 witness, mode 2). -/
theorem connections_distance_le_max_witness :
    rdist ⟨0, 0, 0⟩ ⟨1, 0, 0⟩ ≤ ((2 : ℚ) : ℝ) :=
  (connections_distance_le_max true [⟨0, 0, 0⟩, ⟨1, 0, 0⟩] [] 2).1
    ⟨⟨0, 0, 0⟩, ⟨1, 0, 0⟩⟩
    (by norm_num [connections, connectionsAllPairs, withinDist, Vec3.distSq,
      Vec3.normSq, Vec3.sub])

/-- C4: in closest-pair-between-groups mode, (i) no two groups have more than
one Connection between them; (ii) every Connection joins a member of each of
its two groups, is within the threshold, and attains the minimum distance
among all node pairs between the two groups; (iii) when no pair of two groups
is within the threshold, no connection between them is created. -/
theorem cubeConnections_closestPair_spec (groups : List (List (Vec3 ℚ)))
    (maxD : ℚ) :
    (∀ c₁ ∈ cubeConnections groups maxD, ∀ c₂ ∈ cubeConnections groups maxD,
        c₁.startCubeIndex = c₂.startCubeIndex →
        c₁.endCubeIndex = c₂.endCubeIndex → c₁ = c₂) ∧
    (∀ c ∈ cubeConnections groups maxD,
        c.startCubeIndex < c.endCubeIndex ∧
        ∃ gI gJ, groups[c.startCubeIndex]? = some gI ∧
          groups[c.endCubeIndex]? = some gJ ∧
          c.start ∈ gI ∧ c.endPoint ∈ gJ ∧
          rdist c.start c.endPoint ≤ (maxD : ℝ) ∧
          ∀ p ∈ gI, ∀ q ∈ gJ, rdist c.start c.endPoint ≤ rdist p q) ∧
    (∀ (i j : ℕ) (gI gJ : List (Vec3 ℚ)), groups[i]? = some gI →
        groups[j]? = some gJ →
        (∀ p ∈ gI, ∀ q ∈ gJ, ¬(rdist p q ≤ (maxD : ℝ))) →
        ∀ c ∈ cubeConnections groups maxD,
          ¬(c.startCubeIndex = i ∧ c.endCubeIndex = j)) := by
  refine ⟨fun c₁ h₁ c₂ h₂ => cubeConnectionsFrom_unique groups 0 c₁ c₂ h₁ h₂,
    ?_, ?_⟩
  · intro c hc
    obtain ⟨-, h2, gI, gJ, b, h3, h4, h5, h6⟩ :=
      mem_cubeConnectionsFrom groups 0 c hc
    rw [Nat.sub_zero] at h3 h4
    have hg := closestPairBetween_good h5
    have hmin := closestPairBetween_min h5
    have hcs : c.start = b.start := by rw [h6]
    have hce : c.endPoint = b.endPoint := by rw [h6]
    refine ⟨h2, gI, gJ, h3, h4, ?_, ?_, ?_, ?_⟩
    · rw [hcs]; exact hg.1
    · rw [hce]; exact hg.2.1
    · rw [hcs, hce]; exact (withinDist_eq_true_iff _ _ _).mp hg.2.2.1
    · intro p hp q hq
      rw [hcs, hce]
      refine rdist_le_rdist_of_distSq_le ?_
      calc Vec3.distSq b.start b.endPoint = b.dSq := hg.2.2.2.symm
        _ ≤ Vec3.distSq p q := hmin p hp q hq
  · intro i j gI gJ hgI hgJ hfar c hc ⟨hci, hcj⟩
    obtain ⟨-, -, gI', gJ', b, h3, h4, h5, -⟩ :=
      mem_cubeConnectionsFrom groups 0 c hc
    rw [Nat.sub_zero, hci, hgI] at h3
    rw [Nat.sub_zero, hcj, hgJ] at h4
    obtain rfl : gI = gI' := by exact Option.some.inj h3
    obtain rfl : gJ = gJ' := by exact Option.some.inj h4
    have hg := closestPairBetween_good h5
    exact hfar b.start hg.1 b.endPoint hg.2.1
      ((withinDist_eq_true_iff _ _ _).mp hg.2.2.1)

/-- Witness for C4: two singleton groups at distance 1 with threshold 2
produce the connection `(group 0, node 0) – (group 1, node 0)`, which joins
the two group members, is within the threshold, and is minimal. -/
theorem cubeConnections_closestPair_spec_witness :
    (0 : ℕ) < 1 ∧
    ∃ gI gJ,
      ([[(⟨0, 0, 0⟩ : Vec3 ℚ)], [⟨1, 0, 0⟩]] :
          List (List (Vec3 ℚ)))[(0 : ℕ)]? = some gI ∧
      ([[(⟨0, 0, 0⟩ : Vec3 ℚ)], [⟨1, 0, 0⟩]] :
          List (List (Vec3 ℚ)))[(1 : ℕ)]? = some gJ ∧
      (⟨0, 0, 0⟩ : Vec3 ℚ) ∈ gI ∧ (⟨1, 0, 0⟩ : Vec3 ℚ) ∈ gJ ∧
      rdist ⟨0, 0, 0⟩ ⟨1, 0, 0⟩ ≤ ((2 : ℚ) : ℝ) ∧
      ∀ p ∈ gI, ∀ q ∈ gJ, rdist ⟨0, 0, 0⟩ ⟨1, 0, 0⟩ ≤ rdist p q :=
  (cubeConnections_closestPair_spec [[⟨0, 0, 0⟩], [⟨1, 0, 0⟩]] 2).2.1
    ⟨⟨0, 0, 0⟩, ⟨1, 0, 0⟩, 0, 0, 1, 0⟩
    (by norm_num [cubeConnections, cubeConnectionsFrom, pairsFrom,
      closestPairBetween, outerScan, innerScan, considerPair, withinDist,
      Vec3.distSq, Vec3.normSq, Vec3.sub])

/-! ### Real-valued vector operations for the branch-growth layer

`brain-graph/utils.ts` applies square roots (via `length`/`normalize`) and
trigonometry, so this layer is embedded over `ℝ`. -/

namespace Vec3

/-- Euclidean norm, `Vector3.length()`. -/
noncomputable def length (v : Vec3 ℝ) : ℝ :=
  Real.sqrt (normSq v)

/-- `Vector3.normalize()`: three.js divides componentwise by `length() || 1`,
so the zero vector (the only vector of length 0) is returned unchanged. -/
noncomputable def normalize (v : Vec3 ℝ) : Vec3 ℝ :=
  smul (1 / (if length v = 0 then 1 else length v)) v

theorem normSq_nonneg' (v : Vec3 ℝ) : 0 ≤ normSq v := by
  have hx := mul_self_nonneg v.x
  have hy := mul_self_nonneg v.y
  have hz := mul_self_nonneg v.z
  unfold normSq
  linarith

theorem length_nonneg (v : Vec3 ℝ) : 0 ≤ length v :=
  Real.sqrt_nonneg _

theorem normSq_smul (c : ℝ) (v : Vec3 ℝ) : normSq (smul c v) = c ^ 2 * normSq v := by
  unfold normSq smul
  ring

theorem length_smul (c : ℝ) (v : Vec3 ℝ) : length (smul c v) = |c| * length v := by
  unfold length
  rw [normSq_smul, Real.sqrt_mul (sq_nonneg c), Real.sqrt_sq_eq_abs]

theorem sub_add_cancel_vec (o w : Vec3 ℝ) : sub (add o w) o = w := by
  unfold sub add
  exact Vec3.ext (by ring) (by ring) (by ring)

end Vec3

/-! ### RadiusShaper (brain-graph/utils.ts) -/

/-- `clipBranchToRadius`: walk the points in order and truncate at the first
point whose distance from the world origin exceeds `maxRadius`, discarding it
and everything after it. -/
noncomputable def clipBranchToRadius : List (Vec3 ℝ) → ℝ → List (Vec3 ℝ)
  | [], _ => []
  | p :: rest, maxRadius =>
      if Vec3.length p > maxRadius then []
      else p :: clipBranchToRadius rest maxRadius

/-- `normalizeBranchToRadius`: scale every offset from `origin` by
`targetRadius / currentRadius` so the endpoint lands at `targetRadius`;
returns the list unchanged when it has fewer than 2 points or the endpoint is
within `0.001` of `origin`.  (The `none` branch of the `getLast?` match is
unreachable for lists of length ≥ 2.) -/
noncomputable def normalizeBranchToRadius (points : List (Vec3 ℝ))
    (origin : Vec3 ℝ) (targetRadius : ℝ) : List (Vec3 ℝ) :=
  if points.length < 2 then points
  else
    match points.getLast? with
    | none => points
    | some endpoint =>
        if Vec3.length (Vec3.sub endpoint origin) < 1/1000 then points
        else
          points.map (fun p => Vec3.add origin (Vec3.smul
            (targetRadius / Vec3.length (Vec3.sub endpoint origin))
            (Vec3.sub p origin)))

theorem normalizeBranchToRadius_short {points : List (Vec3 ℝ)} {origin : Vec3 ℝ}
    {targetRadius : ℝ} (h : points.length < 2) :
    normalizeBranchToRadius points origin targetRadius = points := by
  rw [normalizeBranchToRadius, if_pos h]

theorem clipBranchToRadius_isPrefixOf (points : List (Vec3 ℝ)) (maxRadius : ℝ) :
    ∃ rest, points = clipBranchToRadius points maxRadius ++ rest := by
  induction points with
  | nil => exact ⟨[], by simp [clipBranchToRadius]⟩
  | cons p rest0 ih =>
      by_cases hgt : Vec3.length p > maxRadius
      · rw [clipBranchToRadius, if_pos hgt]
        exact ⟨p :: rest0, by simp⟩
      · rw [clipBranchToRadius, if_neg hgt]
        obtain ⟨r0, hr0⟩ := ih
        exact ⟨r0, by rw [List.cons_append, ← hr0]⟩

/-- C6: `clipBranchToRadius` returns the longest prefix of the list containing
no point whose distance from the world origin exceeds `maxRadius`: every
returned point is within `maxRadius`, the result is a prefix of the input, and
every within-radius prefix is no longer than it. -/
theorem clipBranchToRadius_spec (points : List (Vec3 ℝ)) (maxRadius : ℝ) :
    (∀ p ∈ clipBranchToRadius points maxRadius, Vec3.length p ≤ maxRadius) ∧
    (∃ rest, points = clipBranchToRadius points maxRadius ++ rest) ∧
    (∀ pre rest, points = pre ++ rest →
        (∀ p ∈ pre, Vec3.length p ≤ maxRadius) →
        pre.length ≤ (clipBranchToRadius points maxRadius).length) := by
  induction points with
  | nil =>
      refine ⟨by simp [clipBranchToRadius], ⟨[], by simp [clipBranchToRadius]⟩, ?_⟩
      intro pre rest hpre _
      have : pre = [] := by
        rcases List.append_eq_nil.mp hpre.symm with ⟨h1, -⟩
        exact h1
      simp [this]
  | cons p rest0 ih =>
      by_cases hgt : Vec3.length p > maxRadius
      · rw [clipBranchToRadius, if_pos hgt]
        refine ⟨by simp, ⟨p :: rest0, by simp⟩, ?_⟩
        intro pre rest hsplit hall
        rcases pre with _ | ⟨p', pre'⟩
        · simp
        · have hp : p' = p := by
            have := congrArg List.head? hsplit
            simpa using this.symm
          exact absurd (hall p' (List.mem_cons_self _ _))
            (by rw [hp]; exact not_le.mpr hgt)
      · rw [clipBranchToRadius, if_neg hgt]
        obtain ⟨ih1, ⟨r0, hr0⟩, ih3⟩ := ih
        refine ⟨?_, ⟨r0, by rw [List.cons_append, ← hr0]⟩, ?_⟩
        · intro q hq
          rcases List.mem_cons.mp hq with rfl | hq'
          · exact le_of_not_lt hgt
          · exact ih1 q hq'
        · intro pre rest hsplit hall
          rcases pre with _ | ⟨p', pre'⟩
          · simp
          · have hp : p' = p := by
              have := congrArg List.head? hsplit
              simpa using this.symm
            have htail : rest0 = pre' ++ rest := by
              have := congrArg List.tail hsplit
              simpa using this
            have := ih3 pre' rest htail
              (fun q hq => hall q (List.mem_cons_of_mem _ hq))
            simpa using Nat.succ_le_succ this

/-- Witness for C6: for `[⟨1,0,0⟩, ⟨3,0,0⟩]` with `maxRadius = 2` the clipped
branch keeps exactly the first point. -/
theorem clipBranchToRadius_spec_witness :
    (1 : ℕ) ≤ (clipBranchToRadius [⟨1, 0, 0⟩, ⟨3, 0, 0⟩] 2).length :=
  (clipBranchToRadius_spec [⟨1, 0, 0⟩, ⟨3, 0, 0⟩] 2).2.2 [⟨1, 0, 0⟩] [⟨3, 0, 0⟩]
    rfl
    (by
      intro q hq
      obtain rfl : q = ⟨1, 0, 0⟩ := by simpa using hq
      have h1 : Vec3.normSq (⟨1, 0, 0⟩ : Vec3 ℝ) = 1 := by
        simp [Vec3.normSq]
      rw [Vec3.length, h1, Real.sqrt_one]
      norm_num)

/-- C5: for a list of at least 2 points whose endpoint is at distance at least
`0.001` from `origin` and a nonnegative `targetRadius`, every point's offset
from `origin` is scaled by the uniform factor `targetRadius / currentRadius`
and the returned final point lies exactly at distance `targetRadius` from
`origin`; a list with fewer than 2 points, or whose endpoint is within `0.001`
of `origin`, is returned unchanged. -/
theorem normalizeBranchToRadius_spec (points : List (Vec3 ℝ)) (origin : Vec3 ℝ)
    (targetRadius : ℝ) :
    (points.length < 2 →
      normalizeBranchToRadius points origin targetRadius = points) ∧
    (∀ endpoint, points.getLast? = some endpoint →
      Vec3.length (Vec3.sub endpoint origin) < 1/1000 →
      normalizeBranchToRadius points origin targetRadius = points) ∧
    (∀ endpoint, 2 ≤ points.length → points.getLast? = some endpoint →
      (1/1000 : ℝ) ≤ Vec3.length (Vec3.sub endpoint origin) →
      0 ≤ targetRadius →
      normalizeBranchToRadius points origin targetRadius =
        points.map (fun p => Vec3.add origin (Vec3.smul
          (targetRadius / Vec3.length (Vec3.sub endpoint origin))
          (Vec3.sub p origin))) ∧
      ∃ q, (normalizeBranchToRadius points origin targetRadius).getLast? =
          some q ∧ Vec3.length (Vec3.sub q origin) = targetRadius) := by
  refine ⟨?_, ?_, ?_⟩
  · intro hlen
    rw [normalizeBranchToRadius, if_pos hlen]
  · intro endpoint hlast hsmall
    rw [normalizeBranchToRadius]
    by_cases hlen : points.length < 2
    · rw [if_pos hlen]
    · rw [if_neg hlen]
      simp only [hlast]
      rw [if_pos hsmall]
  · intro endpoint hlen hlast hbig htr
    have heq : normalizeBranchToRadius points origin targetRadius =
        points.map (fun p => Vec3.add origin (Vec3.smul
          (targetRadius / Vec3.length (Vec3.sub endpoint origin))
          (Vec3.sub p origin))) := by
      rw [normalizeBranchToRadius, if_neg (not_lt.mpr hlen)]
      simp only [hlast]
      rw [if_neg (not_lt.mpr hbig)]
    refine ⟨heq, ?_⟩
    have hcurpos : 0 < Vec3.length (Vec3.sub endpoint origin) := by
      calc (0 : ℝ) < 1/1000 := by norm_num
        _ ≤ _ := hbig
    refine ⟨Vec3.add origin (Vec3.smul
        (targetRadius / Vec3.length (Vec3.sub endpoint origin))
        (Vec3.sub endpoint origin)), ?_, ?_⟩
    · rw [heq, List.getLast?_map, hlast, Option.map_some']
    · rw [Vec3.sub_add_cancel_vec, Vec3.length_smul,
        abs_of_nonneg (div_nonneg htr (le_of_lt hcurpos)),
        div_mul_cancel₀ _ (ne_of_gt hcurpos)]

/-- Witness for C5: the branch `[origin, ⟨3,4,0⟩]` with `targetRadius = 7` is
rescaled so its endpoint lies at distance exactly 7 from the origin. -/
theorem normalizeBranchToRadius_spec_witness :
    ∃ q, (normalizeBranchToRadius [⟨0, 0, 0⟩, ⟨3, 4, 0⟩] ⟨0, 0, 0⟩ 7).getLast? =
        some q ∧ Vec3.length (Vec3.sub q ⟨0, 0, 0⟩) = 7 :=
  ((normalizeBranchToRadius_spec [⟨0, 0, 0⟩, ⟨3, 4, 0⟩] ⟨0, 0, 0⟩ 7).2.2
    ⟨3, 4, 0⟩ (by norm_num) rfl
    (by
      have h1 : Vec3.normSq (Vec3.sub (⟨3, 4, 0⟩ : Vec3 ℝ) ⟨0, 0, 0⟩) = 25 := by
        simp [Vec3.normSq, Vec3.sub]
        norm_num
      rw [Vec3.length, h1, show (25 : ℝ) = 5 ^ 2 by norm_num,
        Real.sqrt_sq (by norm_num : (0 : ℝ) ≤ 5)]
      norm_num)
    (by norm_num)).2

/-! ### BranchGrower (brain-graph/utils.ts)

`Math.random()` is modelled as the ambient stream `r : ℕ → ℝ` with a counter
threaded through every consumer: a draw reads `r n` and advances to `n + 1`.
The functions return their result paired with the next counter. -/

/-- `randomDirection()`: unit vector from two draws,
`theta = random()·π·2` and `phi = acos(2·random() − 1)`. -/
noncomputable def randomDirection (r : ℕ → ℝ) (n : ℕ) : Vec3 ℝ × ℕ :=
  let theta := r n * Real.pi * 2
  let phi := Real.arccos (2 * r (n + 1) - 1)
  (⟨Real.sin phi * Real.cos theta, Real.sin phi * Real.sin theta,
    Real.cos phi⟩, n + 2)

/-- Rotation of `v` by `angle` around the unit axis `axis`
(`Quaternion.setFromAxisAngle` + `applyQuaternion`): Rodrigues' formula,
which is what quaternion conjugation computes for a unit axis. -/
noncomputable def rotateAxisAngle (axis : Vec3 ℝ) (angle : ℝ) (v : Vec3 ℝ) :
    Vec3 ℝ :=
  Vec3.add (Vec3.add (Vec3.smul (Real.cos angle) v)
      (Vec3.smul (Real.sin angle) (Vec3.cross axis v)))
    (Vec3.smul (Vec3.dot axis v * (1 - Real.cos angle)) axis)

/-- Perpendicular-axis selection of `generateBranchPoints`: normalize the
cross product with the random axis; when its length is below `0.001`, fall
back to `(1,0,0) × dir`, and then to `(0,1,0) × dir`. -/
noncomputable def perpAxisFor (currentDir randomAxis : Vec3 ℝ) : Vec3 ℝ :=
  let p1 := Vec3.normalize (Vec3.cross currentDir randomAxis)
  if Vec3.length p1 < 1/1000 then
    let p2 := Vec3.normalize (Vec3.cross ⟨1, 0, 0⟩ currentDir)
    if Vec3.length p2 < 1/1000 then
      Vec3.normalize (Vec3.cross ⟨0, 1, 0⟩ currentDir)
    else p2
  else p1

/-- Branch configuration (`BranchConfig` of utils.ts); the two optional radii
are `Option`s, `segments` is an integer count. -/
structure BranchConfig where
  origin : Vec3 ℝ
  direction : Vec3 ℝ
  segments : ℤ
  curvature : ℝ
  stepLength : ℝ
  targetRadius : Option ℝ
  maxRadius : Option ℝ

/-- Segment loop of `generateBranchPoints`: each iteration draws a random
axis (two draws) and a rotation angle `(draw − 0.5)·curvature` (one draw),
rotates and re-normalizes the current direction, and advances one point by
`stepLength`.  Returns the points generated after the origin and the next
counter. -/
noncomputable def branchIter (r : ℕ → ℝ) (curvature stepLength : ℝ) :
    ℕ → Vec3 ℝ → Vec3 ℝ → ℕ → List (Vec3 ℝ) × ℕ
  | 0, _, _, n => ([], n)
  | k + 1, dir, lastPoint, n =>
      let ra := randomDirection r n
      let perpAxis := perpAxisFor dir ra.1
      let rotationAngle := (r ra.2 - 1/2) * curvature
      let dir2 := Vec3.normalize (rotateAxisAngle perpAxis rotationAngle dir)
      let nextPoint := Vec3.add lastPoint (Vec3.smul stepLength dir2)
      let rest := branchIter r curvature stepLength k dir2 nextPoint (ra.2 + 1)
      (nextPoint :: rest.1, rest.2)

/-- `generateBranchPoints`: the origin followed by `segments` walk steps
(`segments.toNat` iterations — a JavaScript `for` loop over an integer
bound). -/
noncomputable def generateBranchPoints (r : ℕ → ℝ) (n : ℕ)
    (config : BranchConfig) : List (Vec3 ℝ) × ℕ :=
  let res := branchIter r config.curvature config.stepLength
    config.segments.toNat (Vec3.normalize config.direction) config.origin n
  (config.origin :: res.1, res.2)

/-- `generateBranch`: grow the points, optionally normalize to
`targetRadius`, optionally clip at `maxRadius`, and return `null` (here
`none`) when fewer than 2 points remain. -/
noncomputable def generateBranch (r : ℕ → ℝ) (n : ℕ) (config : BranchConfig) :
    Option (List (Vec3 ℝ)) × ℕ :=
  let grown := generateBranchPoints r n config
  let pts1 := match config.targetRadius with
    | some tr => normalizeBranchToRadius grown.1 config.origin tr
    | none => grown.1
  let pts2 := match config.maxRadius with
    | some mr => clipBranchToRadius pts1 mr
    | none => pts1
  if pts2.length < 2 then (none, grown.2) else (some pts2, grown.2)

theorem clipBranchToRadius_length_le (points : List (Vec3 ℝ)) (maxRadius : ℝ) :
    (clipBranchToRadius points maxRadius).length ≤ points.length := by
  obtain ⟨rest, hrest⟩ := clipBranchToRadius_isPrefixOf points maxRadius
  calc (clipBranchToRadius points maxRadius).length
      ≤ (clipBranchToRadius points maxRadius).length + rest.length :=
        Nat.le_add_right _ _
    _ = points.length := by
        conv_rhs => rw [hrest]
        rw [List.length_append]

/-- C9: for every branch configuration with `segments = 0`, the grown point
sequence is exactly the single origin point, and `generateBranch` returns
`null` (so the branch contributes nothing to the final graph), because
shaping requires at least 2 points. -/
theorem generateBranch_segments_zero (r : ℕ → ℝ) (n : ℕ)
    (config : BranchConfig) (h : config.segments = 0) :
    generateBranchPoints r n config = ([config.origin], n) ∧
    generateBranch r n config = (none, n) := by
  have hpts : generateBranchPoints r n config = ([config.origin], n) := by
    rw [generateBranchPoints, h]
    rfl
  refine ⟨hpts, ?_⟩
  rw [generateBranch, hpts]
  have hlen1 : ∀ tr : Option ℝ,
      (match tr with
        | some tr => normalizeBranchToRadius [config.origin] config.origin tr
        | none => [config.origin]).length = 1 := by
    intro tr
    rcases tr with _ | tr
    · rfl
    · show (normalizeBranchToRadius [config.origin] config.origin tr).length = 1
      rw [normalizeBranchToRadius_short (by norm_num)]
      rfl
  rcases hm : config.maxRadius with _ | mr
  · have := hlen1 config.targetRadius
    rw [if_pos (by rw [this]; norm_num)]
  · set pts1 := (match config.targetRadius with
      | some tr => normalizeBranchToRadius [config.origin] config.origin tr
      | none => [config.origin]) with hpts1
    have hlen : (clipBranchToRadius pts1 mr).length < 2 := by
      have h1 := clipBranchToRadius_length_le pts1 mr
      have h2 := hlen1 config.targetRadius
      rw [← hpts1] at h2
      omega
    rw [if_pos hlen]

/-- Witness for C9: a zero-segment branch from the origin grows a single
point and is dropped. -/
theorem generateBranch_segments_zero_witness :
    generateBranchPoints (fun _ => 0) 0
        ⟨⟨0, 0, 0⟩, ⟨1, 0, 0⟩, 0, 0, 1, none, none⟩ = ([⟨0, 0, 0⟩], 0) ∧
    generateBranch (fun _ => 0) 0
        ⟨⟨0, 0, 0⟩, ⟨1, 0, 0⟩, 0, 0, 1, none, none⟩ = (none, 0) :=
  generateBranch_segments_zero (fun _ => 0) 0
    ⟨⟨0, 0, 0⟩, ⟨1, 0, 0⟩, 0, 0, 1, none, none⟩ rfl

/-! ### GraphAssembler (`generateBrainGraph`)

A `BranchData` of the source carries its point list plus a
`THREE.CatmullRomCurve3` built from it.  The curve is a function of the
points; its two sampling queries `getPointAt` and `getTangentAt` (arc-length
parameterized Catmull-Rom evaluation, used only to spawn sub-branches) are
kept abstract as the parameters `getPt`/`getTan` of the assembler — every
theorem below holds for all samplers. -/

/-- `getSubBranchDirection`: blend of the parent tangent at `t` (queried
through the abstract sampler) with a random perpendicular; one draw for the
angle around the tangent. -/
noncomputable def getSubBranchDirection
    (getTan : List (Vec3 ℝ) → ℝ → Vec3 ℝ) (parentPts : List (Vec3 ℝ))
    (t offsetStrength : ℝ) (r : ℕ → ℝ) (n : ℕ) : Vec3 ℝ × ℕ :=
  let tangent := getTan parentPts t
  let up : Vec3 ℝ :=
    if |Vec3.dot tangent ⟨0, 1, 0⟩| > 99/100 then ⟨1, 0, 0⟩ else ⟨0, 1, 0⟩
  let normal := Vec3.normalize (Vec3.cross tangent up)
  let binormal := Vec3.normalize (Vec3.cross tangent normal)
  let angle := r n * Real.pi * 2
  let perpDir := Vec3.add (Vec3.smul (Real.cos angle) normal)
    (Vec3.smul (Real.sin angle) binormal)
  let direction := Vec3.add (Vec3.smul (1 - offsetStrength) tangent)
    (Vec3.smul offsetStrength perpDir)
  (Vec3.normalize direction, n + 1)

/-- Graph configuration (`GraphConfig` of utils.ts); the counts are
integers. -/
structure GraphConfig where
  mainBranchCount : ℤ
  subBranchCount : ℤ
  mainRadius : ℝ
  maxRadius : ℝ
  segments : ℤ
  curvature : ℝ
  subBranchOffset : ℝ
  subBranchSegments : ℤ
  subBranchCurvature : ℝ

/-- Output of the assembler (`GeneratedGraph`), with each branch represented
by its point list. -/
structure GeneratedGraph where
  mainBranches : List (List (Vec3 ℝ))
  subBranches : List (List (Vec3 ℝ))

/-- Sub-branch loop of `generateBrainGraph`: pick `t ∈ [0.2, 0.8]` (one
draw), spawn at the parent curve point, blend a direction (one draw inside
`getSubBranchDirection`), grow a clipped branch, and keep it when non-null. -/
noncomputable def subBranchLoop (getPt getTan : List (Vec3 ℝ) → ℝ → Vec3 ℝ)
    (config : GraphConfig) (branchPts : List (Vec3 ℝ)) (r : ℕ → ℝ) :
    ℕ → ℕ → List (List (Vec3 ℝ)) × ℕ
  | 0, n => ([], n)
  | j + 1, n =>
      let t := 2/10 + r n * (6/10)
      let spawnPoint := getPt branchPts t
      let sd := getSubBranchDirection getTan branchPts t
        config.subBranchOffset r (n + 1)
      let subStepLength := (config.maxRadius - config.mainRadius * (5/10)) /
        (config.subBranchSegments : ℝ)
      let subBranch := generateBranch r sd.2
        { origin := spawnPoint, direction := sd.1,
          segments := config.subBranchSegments,
          curvature := config.subBranchCurvature,
          stepLength := subStepLength, targetRadius := none,
          maxRadius := some config.maxRadius }
      let rest := subBranchLoop getPt getTan config branchPts r j subBranch.2
      (match subBranch.1 with
       | some pts => pts :: rest.1
       | none => rest.1, rest.2)

/-- Main-branch loop of `generateBrainGraph`: draw a direction (two draws),
grow a branch normalized to `mainRadius`, and when it is non-null keep it and
run the sub-branch loop on it. -/
noncomputable def mainBranchLoop (getPt getTan : List (Vec3 ℝ) → ℝ → Vec3 ℝ)
    (config : GraphConfig) (stepLength : ℝ) (r : ℕ → ℝ) :
    ℕ → ℕ → List (List (Vec3 ℝ)) × List (List (Vec3 ℝ)) × ℕ
  | 0, n => ([], [], n)
  | k + 1, n =>
      let rd := randomDirection r n
      let branch := generateBranch r rd.2
        { origin := ⟨0, 0, 0⟩, direction := rd.1, segments := config.segments,
          curvature := config.curvature, stepLength := stepLength,
          targetRadius := some config.mainRadius, maxRadius := none }
      match branch.1 with
      | some branchPts =>
          let subs := subBranchLoop getPt getTan config branchPts r
            config.subBranchCount.toNat branch.2
          let rest := mainBranchLoop getPt getTan config stepLength r k subs.2
          (branchPts :: rest.1, subs.1 ++ rest.2.1, rest.2.2)
      | none =>
          let rest := mainBranchLoop getPt getTan config stepLength r k branch.2
          (rest.1, rest.2.1, rest.2.2)

/-- `generateBrainGraph`: `mainBranchCount` main branches from the world
origin with `stepLength = mainRadius / segments`, each with
`subBranchCount` sub-branches. -/
noncomputable def generateBrainGraph (getPt getTan : List (Vec3 ℝ) → ℝ → Vec3 ℝ)
    (config : GraphConfig) (r : ℕ → ℝ) (n : ℕ) : GeneratedGraph × ℕ :=
  let stepLength := config.mainRadius / (config.segments : ℝ)
  let res := mainBranchLoop getPt getTan config stepLength r
    config.mainBranchCount.toNat n
  ({ mainBranches := res.1, subBranches := res.2.1 }, res.2.2)

/-- C8 (amended): the engine performs no configuration validation and never
raises — generation is a total function.  A configuration with
`mainBranchCount ≤ 0` (including every negative count) silently yields the
ordinary empty graph without consuming the random stream, exactly as a count
of zero does. -/
theorem generateBrainGraph_no_validation
    (getPt getTan : List (Vec3 ℝ) → ℝ → Vec3 ℝ) (config : GraphConfig)
    (r : ℕ → ℝ) (n : ℕ) (h : config.mainBranchCount ≤ 0) :
    generateBrainGraph getPt getTan config r n =
      ({ mainBranches := [], subBranches := [] }, n) := by
  rw [generateBrainGraph]
  rw [show config.mainBranchCount.toNat = 0 from
    Int.toNat_of_nonpos h]
  rfl

/-- C8 counterexample: the concrete invalid configuration with
`mainBranchCount = -1` is not rejected and surfaces no failure — generation
returns the ordinary empty graph, byte-identical to the output for the valid
count 0. -/
theorem generateBrainGraph_negative_count_counterexample :
    generateBrainGraph (fun _ _ => ⟨0, 0, 0⟩) (fun _ _ => ⟨0, 0, 0⟩)
        { mainBranchCount := -1, subBranchCount := 0, mainRadius := 1,
          maxRadius := 2, segments := 1, curvature := 0, subBranchOffset := 0,
          subBranchSegments := 1, subBranchCurvature := 0 } (fun _ => 0) 0 =
      ({ mainBranches := [], subBranches := [] }, 0) ∧
    generateBrainGraph (fun _ _ => ⟨0, 0, 0⟩) (fun _ _ => ⟨0, 0, 0⟩)
        { mainBranchCount := -1, subBranchCount := 0, mainRadius := 1,
          maxRadius := 2, segments := 1, curvature := 0, subBranchOffset := 0,
          subBranchSegments := 1, subBranchCurvature := 0 } (fun _ => 0) 0 =
      generateBrainGraph (fun _ _ => ⟨0, 0, 0⟩) (fun _ _ => ⟨0, 0, 0⟩)
        { mainBranchCount := 0, subBranchCount := 0, mainRadius := 1,
          maxRadius := 2, segments := 1, curvature := 0, subBranchOffset := 0,
          subBranchSegments := 1, subBranchCurvature := 0 } (fun _ => 0) 0 :=
  ⟨rfl, rfl⟩

/-! ### C1: determinism

`generateBrainGraph` never reads a seed: all its randomness comes from the
ambient `Math.random()` stream.  The claim's determinism therefore fails on
the code (see the counterexample below); what does hold is determinism
relative to the stream interval actually consumed, proved through counter
monotonicity plus agreement lemmas for every stream consumer. -/

/-- Direction computed by one iteration of `branchIter` from the draws at
`n`, `n+1` (random axis) and `n+2` (rotation angle); proof-layer abbreviation
for the loop body. -/
noncomputable def stepDirection (r : ℕ → ℝ) (curvature : ℝ) (dir : Vec3 ℝ)
    (n : ℕ) : Vec3 ℝ :=
  Vec3.normalize (rotateAxisAngle (perpAxisFor dir (randomDirection r n).1)
    ((r (n + 2) - 1/2) * curvature) dir)

theorem randomDirection_snd (r : ℕ → ℝ) (n : ℕ) :
    (randomDirection r n).2 = n + 2 := rfl

theorem randomDirection_agree {r₁ r₂ : ℕ → ℝ} {n : ℕ}
    (h0 : r₁ n = r₂ n) (h1 : r₁ (n + 1) = r₂ (n + 1)) :
    randomDirection r₁ n = randomDirection r₂ n := by
  unfold randomDirection
  rw [h0, h1]

theorem stepDirection_agree {r₁ r₂ : ℕ → ℝ} {curvature : ℝ} {dir : Vec3 ℝ}
    {n : ℕ} (h0 : r₁ n = r₂ n) (h1 : r₁ (n + 1) = r₂ (n + 1))
    (h2 : r₁ (n + 2) = r₂ (n + 2)) :
    stepDirection r₁ curvature dir n = stepDirection r₂ curvature dir n := by
  unfold stepDirection
  rw [randomDirection_agree h0 h1, h2]

theorem branchIter_succ (r : ℕ → ℝ) (curvature stepLength : ℝ) (k : ℕ)
    (dir lastPoint : Vec3 ℝ) (n : ℕ) :
    branchIter r curvature stepLength (k + 1) dir lastPoint n =
      (Vec3.add lastPoint (Vec3.smul stepLength (stepDirection r curvature dir n)) ::
        (branchIter r curvature stepLength k (stepDirection r curvature dir n)
          (Vec3.add lastPoint
            (Vec3.smul stepLength (stepDirection r curvature dir n)))
          (n + 3)).1,
      (branchIter r curvature stepLength k (stepDirection r curvature dir n)
        (Vec3.add lastPoint
          (Vec3.smul stepLength (stepDirection r curvature dir n)))
        (n + 3)).2) := rfl

theorem branchIter_snd_ge (r : ℕ → ℝ) (curvature stepLength : ℝ) :
    ∀ (k : ℕ) (dir lastPoint : Vec3 ℝ) (n : ℕ),
      n ≤ (branchIter r curvature stepLength k dir lastPoint n).2 := by
  intro k
  induction k with
  | zero => intro dir lastPoint n; exact le_refl n
  | succ k ih =>
      intro dir lastPoint n
      rw [branchIter_succ]
      calc n ≤ n + 3 := by omega
        _ ≤ _ := ih _ _ (n + 3)

theorem branchIter_agree {r₁ r₂ : ℕ → ℝ} {curvature stepLength : ℝ} :
    ∀ (k : ℕ) (dir lastPoint : Vec3 ℝ) (n : ℕ),
      (∀ m, n ≤ m → m < (branchIter r₁ curvature stepLength k dir lastPoint n).2 →
        r₁ m = r₂ m) →
      branchIter r₁ curvature stepLength k dir lastPoint n =
        branchIter r₂ curvature stepLength k dir lastPoint n := by
  intro k
  induction k with
  | zero => intro dir lastPoint n _; rfl
  | succ k ih =>
      intro dir lastPoint n h
      have hfin : n + 3 ≤
          (branchIter r₁ curvature stepLength (k + 1) dir lastPoint n).2 := by
        rw [branchIter_succ]
        exact branchIter_snd_ge r₁ curvature stepLength k _ _ (n + 3)
      have h0 : r₁ n = r₂ n := h n (le_refl n) (by omega)
      have h1 : r₁ (n + 1) = r₂ (n + 1) := h (n + 1) (by omega) (by omega)
      have h2 : r₁ (n + 2) = r₂ (n + 2) := h (n + 2) (by omega) (by omega)
      have hsd := @stepDirection_agree r₁ r₂ curvature dir n h0 h1 h2
      rw [branchIter_succ, branchIter_succ, hsd]
      have hrec := ih (stepDirection r₂ curvature dir n)
        (Vec3.add lastPoint
          (Vec3.smul stepLength (stepDirection r₂ curvature dir n))) (n + 3)
        (by
          intro m hm3 hmlt
          refine h m (by omega) ?_
          have : (branchIter r₁ curvature stepLength (k + 1) dir lastPoint n).2 =
              (branchIter r₁ curvature stepLength k (stepDirection r₂ curvature dir n)
                (Vec3.add lastPoint
                  (Vec3.smul stepLength (stepDirection r₂ curvature dir n)))
                (n + 3)).2 := by
            rw [branchIter_succ, hsd]
          rw [this]
          exact hmlt)
      rw [hrec]

theorem generateBranchPoints_snd (r : ℕ → ℝ) (n : ℕ) (config : BranchConfig) :
    (generateBranchPoints r n config).2 =
      (branchIter r config.curvature config.stepLength config.segments.toNat
        (Vec3.normalize config.direction) config.origin n).2 := rfl

theorem generateBranchPoints_snd_ge (r : ℕ → ℝ) (n : ℕ) (config : BranchConfig) :
    n ≤ (generateBranchPoints r n config).2 := by
  rw [generateBranchPoints_snd]
  exact branchIter_snd_ge _ _ _ _ _ _ _

theorem generateBranchPoints_agree {r₁ r₂ : ℕ → ℝ} {n : ℕ}
    {config : BranchConfig}
    (h : ∀ m, n ≤ m → m < (generateBranchPoints r₁ n config).2 → r₁ m = r₂ m) :
    generateBranchPoints r₁ n config = generateBranchPoints r₂ n config := by
  unfold generateBranchPoints
  rw [branchIter_agree config.segments.toNat (Vec3.normalize config.direction)
    config.origin n h]

theorem generateBranch_snd (r : ℕ → ℝ) (n : ℕ) (config : BranchConfig) :
    (generateBranch r n config).2 = (generateBranchPoints r n config).2 := by
  rw [generateBranch]
  split
  · rfl
  · rfl

theorem generateBranch_snd_ge (r : ℕ → ℝ) (n : ℕ) (config : BranchConfig) :
    n ≤ (generateBranch r n config).2 := by
  rw [generateBranch_snd]
  exact generateBranchPoints_snd_ge r n config

theorem generateBranch_agree {r₁ r₂ : ℕ → ℝ} {n : ℕ} {config : BranchConfig}
    (h : ∀ m, n ≤ m → m < (generateBranch r₁ n config).2 → r₁ m = r₂ m) :
    generateBranch r₁ n config = generateBranch r₂ n config := by
  rw [generateBranch_snd] at h
  have hg := generateBranchPoints_agree h
  unfold generateBranch
  rw [hg]

theorem getSubBranchDirection_snd (getTan : List (Vec3 ℝ) → ℝ → Vec3 ℝ)
    (parentPts : List (Vec3 ℝ)) (t offsetStrength : ℝ) (r : ℕ → ℝ) (n : ℕ) :
    (getSubBranchDirection getTan parentPts t offsetStrength r n).2 = n + 1 := rfl

theorem getSubBranchDirection_agree
    {getTan : List (Vec3 ℝ) → ℝ → Vec3 ℝ} {parentPts : List (Vec3 ℝ)}
    {t offsetStrength : ℝ} {r₁ r₂ : ℕ → ℝ} {n : ℕ} (h : r₁ n = r₂ n) :
    getSubBranchDirection getTan parentPts t offsetStrength r₁ n =
      getSubBranchDirection getTan parentPts t offsetStrength r₂ n := by
  unfold getSubBranchDirection
  rw [h]

/-- Branch configuration built for one sub-branch spawn: the draw at `n`
picks `t`, the draw at `n + 1` picks the blend angle; proof-layer
abbreviation for the loop body of `subBranchLoop`. -/
noncomputable def subSpawn (getPt getTan : List (Vec3 ℝ) → ℝ → Vec3 ℝ)
    (config : GraphConfig) (branchPts : List (Vec3 ℝ)) (r : ℕ → ℝ) (n : ℕ) :
    BranchConfig :=
  { origin := getPt branchPts (2/10 + r n * (6/10)),
    direction := (getSubBranchDirection getTan branchPts (2/10 + r n * (6/10))
      config.subBranchOffset r (n + 1)).1,
    segments := config.subBranchSegments,
    curvature := config.subBranchCurvature,
    stepLength := (config.maxRadius - config.mainRadius * (5/10)) /
      (config.subBranchSegments : ℝ),
    targetRadius := none, maxRadius := some config.maxRadius }

theorem subSpawn_agree {getPt getTan : List (Vec3 ℝ) → ℝ → Vec3 ℝ}
    {config : GraphConfig} {branchPts : List (Vec3 ℝ)} {r₁ r₂ : ℕ → ℝ} {n : ℕ}
    (h0 : r₁ n = r₂ n) (h1 : r₁ (n + 1) = r₂ (n + 1)) :
    subSpawn getPt getTan config branchPts r₁ n =
      subSpawn getPt getTan config branchPts r₂ n := by
  unfold subSpawn
  rw [h0, getSubBranchDirection_agree h1]

theorem subBranchLoop_succ (getPt getTan : List (Vec3 ℝ) → ℝ → Vec3 ℝ)
    (config : GraphConfig) (branchPts : List (Vec3 ℝ)) (r : ℕ → ℝ)
    (j n : ℕ) :
    subBranchLoop getPt getTan config branchPts r (j + 1) n =
      (match (generateBranch r (n + 2)
          (subSpawn getPt getTan config branchPts r n)).1 with
       | some pts => pts ::
          (subBranchLoop getPt getTan config branchPts r j
            (generateBranch r (n + 2)
              (subSpawn getPt getTan config branchPts r n)).2).1
       | none =>
          (subBranchLoop getPt getTan config branchPts r j
            (generateBranch r (n + 2)
              (subSpawn getPt getTan config branchPts r n)).2).1,
       (subBranchLoop getPt getTan config branchPts r j
         (generateBranch r (n + 2)
           (subSpawn getPt getTan config branchPts r n)).2).2) := rfl

theorem subBranchLoop_snd_ge (getPt getTan : List (Vec3 ℝ) → ℝ → Vec3 ℝ)
    (config : GraphConfig) (branchPts : List (Vec3 ℝ)) (r : ℕ → ℝ) :
    ∀ (j n : ℕ), n ≤ (subBranchLoop getPt getTan config branchPts r j n).2 := by
  intro j
  induction j with
  | zero => intro n; exact le_refl n
  | succ j ih =>
      intro n
      rw [subBranchLoop_succ]
      show n ≤ (subBranchLoop getPt getTan config branchPts r j
        (generateBranch r (n + 2)
          (subSpawn getPt getTan config branchPts r n)).2).2
      calc n ≤ n + 2 := by omega
        _ ≤ (generateBranch r (n + 2)
              (subSpawn getPt getTan config branchPts r n)).2 :=
            generateBranch_snd_ge _ _ _
        _ ≤ _ := ih _

theorem subBranchLoop_agree {getPt getTan : List (Vec3 ℝ) → ℝ → Vec3 ℝ}
    {config : GraphConfig} {branchPts : List (Vec3 ℝ)} {r₁ r₂ : ℕ → ℝ} :
    ∀ (j n : ℕ),
      (∀ m, n ≤ m →
        m < (subBranchLoop getPt getTan config branchPts r₁ j n).2 →
        r₁ m = r₂ m) →
      subBranchLoop getPt getTan config branchPts r₁ j n =
        subBranchLoop getPt getTan config branchPts r₂ j n := by
  intro j
  induction j with
  | zero => intro n _; rfl
  | succ j ih =>
      intro n h
      have hB₁ : n + 2 ≤ (generateBranch r₁ (n + 2)
          (subSpawn getPt getTan config branchPts r₁ n)).2 :=
        generateBranch_snd_ge _ _ _
      have hfin : (generateBranch r₁ (n + 2)
          (subSpawn getPt getTan config branchPts r₁ n)).2 ≤
          (subBranchLoop getPt getTan config branchPts r₁ (j + 1) n).2 := by
        rw [subBranchLoop_succ]
        exact subBranchLoop_snd_ge getPt getTan config branchPts r₁ j _
      have h0 : r₁ n = r₂ n := h n (le_refl n) (by omega)
      have h1 : r₁ (n + 1) = r₂ (n + 1) := h (n + 1) (by omega) (by omega)
      have hcfg : subSpawn getPt getTan config branchPts r₁ n =
          subSpawn getPt getTan config branchPts r₂ n := subSpawn_agree h0 h1
      have hbr : generateBranch r₁ (n + 2)
            (subSpawn getPt getTan config branchPts r₁ n) =
          generateBranch r₂ (n + 2)
            (subSpawn getPt getTan config branchPts r₂ n) := by
        rw [← hcfg]
        exact generateBranch_agree (fun m hm hlt =>
          h m (by omega) (lt_of_lt_of_le hlt hfin))
      have hrec : subBranchLoop getPt getTan config branchPts r₁ j
            (generateBranch r₁ (n + 2)
              (subSpawn getPt getTan config branchPts r₁ n)).2 =
          subBranchLoop getPt getTan config branchPts r₂ j
            (generateBranch r₁ (n + 2)
              (subSpawn getPt getTan config branchPts r₁ n)).2 := by
        refine ih _ (fun m hm hlt => h m (le_trans (by omega) hm) ?_)
        have hFeq : (subBranchLoop getPt getTan config branchPts r₁ (j + 1) n).2 =
            (subBranchLoop getPt getTan config branchPts r₁ j
              (generateBranch r₁ (n + 2)
                (subSpawn getPt getTan config branchPts r₁ n)).2).2 := by
          rw [subBranchLoop_succ]
        rw [hFeq]
        exact hlt
      rw [subBranchLoop_succ, subBranchLoop_succ, hrec, hbr]

/-- Branch configuration of one main branch (`origin` at the world origin,
normalized to `mainRadius`). -/
noncomputable def mainSpawn (config : GraphConfig) (stepLength : ℝ)
    (dir : Vec3 ℝ) : BranchConfig :=
  { origin := ⟨0, 0, 0⟩, direction := dir, segments := config.segments,
    curvature := config.curvature, stepLength := stepLength,
    targetRadius := some config.mainRadius, maxRadius := none }

theorem mainBranchLoop_succ (getPt getTan : List (Vec3 ℝ) → ℝ → Vec3 ℝ)
    (config : GraphConfig) (stepLength : ℝ) (r : ℕ → ℝ) (k n : ℕ) :
    mainBranchLoop getPt getTan config stepLength r (k + 1) n =
      (match (generateBranch r (n + 2)
          (mainSpawn config stepLength (randomDirection r n).1)).1 with
       | some branchPts =>
          (branchPts ::
            (mainBranchLoop getPt getTan config stepLength r k
              (subBranchLoop getPt getTan config branchPts r
                config.subBranchCount.toNat
                (generateBranch r (n + 2)
                  (mainSpawn config stepLength (randomDirection r n).1)).2).2).1,
           (subBranchLoop getPt getTan config branchPts r
              config.subBranchCount.toNat
              (generateBranch r (n + 2)
                (mainSpawn config stepLength (randomDirection r n).1)).2).1 ++
             (mainBranchLoop getPt getTan config stepLength r k
               (subBranchLoop getPt getTan config branchPts r
                 config.subBranchCount.toNat
                 (generateBranch r (n + 2)
                   (mainSpawn config stepLength (randomDirection r n).1)).2).2).2.1,
           (mainBranchLoop getPt getTan config stepLength r k
             (subBranchLoop getPt getTan config branchPts r
               config.subBranchCount.toNat
               (generateBranch r (n + 2)
                 (mainSpawn config stepLength (randomDirection r n).1)).2).2).2.2)
       | none =>
          ((mainBranchLoop getPt getTan config stepLength r k
              (generateBranch r (n + 2)
                (mainSpawn config stepLength (randomDirection r n).1)).2).1,
           (mainBranchLoop getPt getTan config stepLength r k
              (generateBranch r (n + 2)
                (mainSpawn config stepLength (randomDirection r n).1)).2).2.1,
           (mainBranchLoop getPt getTan config stepLength r k
              (generateBranch r (n + 2)
                (mainSpawn config stepLength (randomDirection r n).1)).2).2.2)) := rfl

theorem mainBranchLoop_snd_ge (getPt getTan : List (Vec3 ℝ) → ℝ → Vec3 ℝ)
    (config : GraphConfig) (stepLength : ℝ) (r : ℕ → ℝ) :
    ∀ (k n : ℕ),
      n ≤ (mainBranchLoop getPt getTan config stepLength r k n).2.2 := by
  intro k
  induction k with
  | zero => intro n; exact le_refl n
  | succ k ih =>
      intro n
      rw [mainBranchLoop_succ]
      rcases hb : (generateBranch r (n + 2)
          (mainSpawn config stepLength (randomDirection r n).1)).1 with _ | pts
      · show n ≤ (mainBranchLoop getPt getTan config stepLength r k
          (generateBranch r (n + 2)
            (mainSpawn config stepLength (randomDirection r n).1)).2).2.2
        calc n ≤ n + 2 := by omega
          _ ≤ (generateBranch r (n + 2)
                (mainSpawn config stepLength (randomDirection r n).1)).2 :=
              generateBranch_snd_ge _ _ _
          _ ≤ _ := ih _
      · show n ≤ (mainBranchLoop getPt getTan config stepLength r k
          (subBranchLoop getPt getTan config pts r config.subBranchCount.toNat
            (generateBranch r (n + 2)
              (mainSpawn config stepLength (randomDirection r n).1)).2).2).2.2
        calc n ≤ n + 2 := by omega
          _ ≤ (generateBranch r (n + 2)
                (mainSpawn config stepLength (randomDirection r n).1)).2 :=
              generateBranch_snd_ge _ _ _
          _ ≤ (subBranchLoop getPt getTan config pts r
                config.subBranchCount.toNat
                (generateBranch r (n + 2)
                  (mainSpawn config stepLength (randomDirection r n).1)).2).2 :=
              subBranchLoop_snd_ge _ _ _ _ _ _ _
          _ ≤ _ := ih _

theorem mainBranchLoop_agree {getPt getTan : List (Vec3 ℝ) → ℝ → Vec3 ℝ}
    {config : GraphConfig} {stepLength : ℝ} {r₁ r₂ : ℕ → ℝ} :
    ∀ (k n : ℕ),
      (∀ m, n ≤ m →
        m < (mainBranchLoop getPt getTan config stepLength r₁ k n).2.2 →
        r₁ m = r₂ m) →
      mainBranchLoop getPt getTan config stepLength r₁ k n =
        mainBranchLoop getPt getTan config stepLength r₂ k n := by
  intro k
  induction k with
  | zero => intro n _; rfl
  | succ k ih =>
      intro n h
      have hB₁ge : n + 2 ≤ (generateBranch r₁ (n + 2)
          (mainSpawn config stepLength (randomDirection r₁ n).1)).2 :=
        generateBranch_snd_ge _ _ _
      have hfin : (generateBranch r₁ (n + 2)
            (mainSpawn config stepLength (randomDirection r₁ n).1)).2 ≤
          (mainBranchLoop getPt getTan config stepLength r₁ (k + 1) n).2.2 := by
        rw [mainBranchLoop_succ]
        rcases hb : (generateBranch r₁ (n + 2)
            (mainSpawn config stepLength (randomDirection r₁ n).1)).1 with _ | pts
        · show (generateBranch r₁ (n + 2)
              (mainSpawn config stepLength (randomDirection r₁ n).1)).2 ≤
            (mainBranchLoop getPt getTan config stepLength r₁ k
              (generateBranch r₁ (n + 2)
                (mainSpawn config stepLength (randomDirection r₁ n).1)).2).2.2
          exact mainBranchLoop_snd_ge _ _ _ _ _ _ _
        · show (generateBranch r₁ (n + 2)
              (mainSpawn config stepLength (randomDirection r₁ n).1)).2 ≤
            (mainBranchLoop getPt getTan config stepLength r₁ k
              (subBranchLoop getPt getTan config pts r₁
                config.subBranchCount.toNat
                (generateBranch r₁ (n + 2)
                  (mainSpawn config stepLength (randomDirection r₁ n).1)).2).2).2.2
          calc (generateBranch r₁ (n + 2)
                (mainSpawn config stepLength (randomDirection r₁ n).1)).2
              ≤ (subBranchLoop getPt getTan config pts r₁
                  config.subBranchCount.toNat
                  (generateBranch r₁ (n + 2)
                    (mainSpawn config stepLength (randomDirection r₁ n).1)).2).2 :=
                subBranchLoop_snd_ge _ _ _ _ _ _ _
            _ ≤ _ := mainBranchLoop_snd_ge _ _ _ _ _ _ _
      have h0 : r₁ n = r₂ n := h n (le_refl n) (by omega)
      have h1 : r₁ (n + 1) = r₂ (n + 1) := h (n + 1) (by omega) (by omega)
      have hrd : randomDirection r₁ n = randomDirection r₂ n :=
        randomDirection_agree h0 h1
      have hcfg : mainSpawn config stepLength (randomDirection r₁ n).1 =
          mainSpawn config stepLength (randomDirection r₂ n).1 := by rw [hrd]
      have hbr : generateBranch r₁ (n + 2)
            (mainSpawn config stepLength (randomDirection r₁ n).1) =
          generateBranch r₂ (n + 2)
            (mainSpawn config stepLength (randomDirection r₂ n).1) := by
        rw [← hcfg]
        exact generateBranch_agree (fun m hm hlt =>
          h m (by omega) (lt_of_lt_of_le hlt hfin))
      have hBge : n + 2 ≤ (generateBranch r₂ (n + 2)
          (mainSpawn config stepLength (randomDirection r₂ n).1)).2 := by
        rw [← hbr]
        exact hB₁ge
      rw [mainBranchLoop_succ, mainBranchLoop_succ, hbr]
      rcases hb : (generateBranch r₂ (n + 2)
          (mainSpawn config stepLength (randomDirection r₂ n).1)).1 with _ | pts
      · have hF : (mainBranchLoop getPt getTan config stepLength r₁ (k + 1) n).2.2 =
            (mainBranchLoop getPt getTan config stepLength r₁ k
              (generateBranch r₂ (n + 2)
                (mainSpawn config stepLength (randomDirection r₂ n).1)).2).2.2 := by
          rw [mainBranchLoop_succ, hbr, hb]
        have hrec := ih (generateBranch r₂ (n + 2)
            (mainSpawn config stepLength (randomDirection r₂ n).1)).2
          (fun m hm hlt => h m (by omega) (by rw [hF]; exact hlt))
        rw [hrec]
      · have hF : (mainBranchLoop getPt getTan config stepLength r₁ (k + 1) n).2.2 =
            (mainBranchLoop getPt getTan config stepLength r₁ k
              (subBranchLoop getPt getTan config pts r₁
                config.subBranchCount.toNat
                (generateBranch r₂ (n + 2)
                  (mainSpawn config stepLength (randomDirection r₂ n).1)).2).2).2.2 := by
          rw [mainBranchLoop_succ, hbr, hb]
        have hSge : (generateBranch r₂ (n + 2)
              (mainSpawn config stepLength (randomDirection r₂ n).1)).2 ≤
            (subBranchLoop getPt getTan config pts r₁
              config.subBranchCount.toNat
              (generateBranch r₂ (n + 2)
                (mainSpawn config stepLength (randomDirection r₂ n).1)).2).2 :=
          subBranchLoop_snd_ge _ _ _ _ _ _ _
        have hsub : subBranchLoop getPt getTan config pts r₁
              config.subBranchCount.toNat
              (generateBranch r₂ (n + 2)
                (mainSpawn config stepLength (randomDirection r₂ n).1)).2 =
            subBranchLoop getPt getTan config pts r₂
              config.subBranchCount.toNat
              (generateBranch r₂ (n + 2)
                (mainSpawn config stepLength (randomDirection r₂ n).1)).2 := by
          refine subBranchLoop_agree _ _ (fun m hm hlt => h m (by omega) ?_)
          rw [hF]
          calc m < _ := hlt
            _ ≤ _ := mainBranchLoop_snd_ge _ _ _ _ _ _ _
        have hrec := ih (subBranchLoop getPt getTan config pts r₁
            config.subBranchCount.toNat
            (generateBranch r₂ (n + 2)
              (mainSpawn config stepLength (randomDirection r₂ n).1)).2).2
          (fun m hm hlt => h m (by omega) (by rw [hF]; exact hlt))
        show (pts :: (mainBranchLoop getPt getTan config stepLength r₁ k
                (subBranchLoop getPt getTan config pts r₁
                  config.subBranchCount.toNat
                  (generateBranch r₂ (n + 2)
                    (mainSpawn config stepLength (randomDirection r₂ n).1)).2).2).1,
             (subBranchLoop getPt getTan config pts r₁
                config.subBranchCount.toNat
                (generateBranch r₂ (n + 2)
                  (mainSpawn config stepLength (randomDirection r₂ n).1)).2).1 ++
               (mainBranchLoop getPt getTan config stepLength r₁ k
                 (subBranchLoop getPt getTan config pts r₁
                   config.subBranchCount.toNat
                   (generateBranch r₂ (n + 2)
                     (mainSpawn config stepLength (randomDirection r₂ n).1)).2).2).2.1,
             (mainBranchLoop getPt getTan config stepLength r₁ k
               (subBranchLoop getPt getTan config pts r₁
                 config.subBranchCount.toNat
                 (generateBranch r₂ (n + 2)
                   (mainSpawn config stepLength (randomDirection r₂ n).1)).2).2).2.2) =
            (pts :: (mainBranchLoop getPt getTan config stepLength r₂ k
                (subBranchLoop getPt getTan config pts r₂
                  config.subBranchCount.toNat
                  (generateBranch r₂ (n + 2)
                    (mainSpawn config stepLength (randomDirection r₂ n).1)).2).2).1,
             (subBranchLoop getPt getTan config pts r₂
                config.subBranchCount.toNat
                (generateBranch r₂ (n + 2)
                  (mainSpawn config stepLength (randomDirection r₂ n).1)).2).1 ++
               (mainBranchLoop getPt getTan config stepLength r₂ k
                 (subBranchLoop getPt getTan config pts r₂
                   config.subBranchCount.toNat
                   (generateBranch r₂ (n + 2)
                     (mainSpawn config stepLength (randomDirection r₂ n).1)).2).2).2.1,
             (mainBranchLoop getPt getTan config stepLength r₂ k
               (subBranchLoop getPt getTan config pts r₂
                 config.subBranchCount.toNat
                 (generateBranch r₂ (n + 2)
                   (mainSpawn config stepLength (randomDirection r₂ n).1)).2).2).2.2)
        rw [hrec, hsub]

/-- C1 (amended): `generateBrainGraph` reads no seed — all its randomness
comes from the ambient unseeded `Math.random()` stream — so run-to-run
determinism holds exactly relative to that stream: two runs that read equal
values on the stream interval the first run consumes produce identical
graphs.  (The seeded placement layer is deterministic in (hash, parameters)
by construction, being a pure function of them.)  Two independent runs draw
different streams and can differ, see the counterexample. -/
theorem generateBrainGraph_deterministic_in_stream
    (getPt getTan : List (Vec3 ℝ) → ℝ → Vec3 ℝ) (config : GraphConfig)
    (r₁ r₂ : ℕ → ℝ) (n : ℕ)
    (h : ∀ m, n ≤ m → m < (generateBrainGraph getPt getTan config r₁ n).2 →
      r₁ m = r₂ m) :
    generateBrainGraph getPt getTan config r₁ n =
      generateBrainGraph getPt getTan config r₂ n := by
  simp only [generateBrainGraph]
  rw [mainBranchLoop_agree config.mainBranchCount.toNat n h]

/-- First `Math.random()` stream of the nondeterminism counterexample:
draws `0, 1/2, 0, 0, 0, …`. -/
noncomputable def streamA : ℕ → ℝ := fun k => if k = 1 then 1/2 else 0

/-- Second stream: draws `1/4, 1/2, 0, 0, 0, …` — an equally possible
sequence of `Math.random()` results differing from `streamA` only at
index 0. -/
noncomputable def streamB : ℕ → ℝ :=
  fun k => if k = 0 then 1/4 else if k = 1 then 1/2 else 0

/-- Stream equal to `streamA` on the consumed interval `[0, 5)` and different
beyond it; used by the witness of the amended determinism theorem. -/
noncomputable def streamA' : ℕ → ℝ :=
  fun k => if k = 1 then 1/2 else if k < 5 then 0 else 42

/-- Trivial curve sampler used to instantiate the abstract Catmull-Rom
queries in the concrete runs (which spawn no sub-branches, so it is never
consulted). -/
noncomputable def constSampler : List (Vec3 ℝ) → ℝ → Vec3 ℝ := fun _ _ => ⟨0, 0, 0⟩

/-- Concrete configuration of the determinism counterexample: one main
branch, one segment, zero curvature, no sub-branches. -/
noncomputable def demoConfig : GraphConfig :=
  { mainBranchCount := 1, subBranchCount := 0, mainRadius := 1, maxRadius := 2,
    segments := 1, curvature := 0, subBranchOffset := 0, subBranchSegments := 1,
    subBranchCurvature := 0 }

theorem length_unit3 {a b c : ℝ} (h : a * a + b * b + c * c = 1) :
    Vec3.length ⟨a, b, c⟩ = 1 := by
  rw [Vec3.length, show Vec3.normSq (⟨a, b, c⟩ : Vec3 ℝ) = 1 from h,
    Real.sqrt_one]

theorem normalize_of_length_one {v : Vec3 ℝ} (h : Vec3.length v = 1) :
    Vec3.normalize v = v := by
  rw [Vec3.normalize, h, if_neg (one_ne_zero : (1 : ℝ) ≠ 0)]
  ext <;> simp [Vec3.smul]

theorem rotateAxisAngle_zero (axis v : Vec3 ℝ) :
    rotateAxisAngle axis 0 v = v := by
  unfold rotateAxisAngle
  rw [Real.cos_zero, Real.sin_zero]
  ext <;> simp [Vec3.add, Vec3.smul, Vec3.cross, Vec3.dot]

theorem streamA_randomDirection_zero :
    randomDirection streamA 0 = (⟨1, 0, 0⟩, 2) := by
  have h0 : streamA 0 = 0 := by norm_num [streamA]
  have h1 : streamA 1 = 1/2 := by norm_num [streamA]
  rw [randomDirection, h0, h1]
  norm_num [Real.arccos_zero, Real.sin_pi_div_two, Real.cos_pi_div_two,
    Real.sin_zero, Real.cos_zero]

theorem streamA_randomDirection_two :
    randomDirection streamA 2 = (⟨0, 0, -1⟩, 4) := by
  have h2 : streamA 2 = 0 := by norm_num [streamA]
  have h3 : streamA 3 = 0 := by norm_num [streamA]
  rw [randomDirection, h2, h3]
  norm_num [Real.sin_pi, Real.cos_pi, Real.sin_zero, Real.cos_zero,
    show (2 : ℝ) * 0 - 1 = -1 by norm_num, Real.arccos_neg_one]

theorem perpAxisFor_A : perpAxisFor ⟨1, 0, 0⟩ ⟨0, 0, -1⟩ = ⟨0, 1, 0⟩ := by
  have hcross : Vec3.cross (⟨1, 0, 0⟩ : Vec3 ℝ) ⟨0, 0, -1⟩ = ⟨0, 1, 0⟩ := by
    ext <;> norm_num [Vec3.cross]
  have hlen : Vec3.length (⟨0, 1, 0⟩ : Vec3 ℝ) = 1 :=
    length_unit3 (by norm_num)
  simp only [perpAxisFor]
  rw [hcross, normalize_of_length_one hlen, hlen,
    if_neg (by norm_num : ¬((1 : ℝ) < 1/1000))]

theorem stepDirection_A : stepDirection streamA 0 ⟨1, 0, 0⟩ 2 = ⟨1, 0, 0⟩ := by
  have hlen : Vec3.length (⟨1, 0, 0⟩ : Vec3 ℝ) = 1 :=
    length_unit3 (by norm_num)
  unfold stepDirection
  rw [streamA_randomDirection_two]
  show Vec3.normalize (rotateAxisAngle (perpAxisFor ⟨1, 0, 0⟩ ⟨0, 0, -1⟩)
    ((streamA (2 + 2) - 1/2) * 0) ⟨1, 0, 0⟩) = ⟨1, 0, 0⟩
  rw [mul_zero, perpAxisFor_A, rotateAxisAngle_zero,
    normalize_of_length_one hlen]

theorem branchIter_A :
    branchIter streamA 0 1 1 ⟨1, 0, 0⟩ ⟨0, 0, 0⟩ 2 = ([⟨1, 0, 0⟩], 5) := by
  rw [branchIter_succ, stepDirection_A]
  have hadd : Vec3.add ⟨0, 0, 0⟩ (Vec3.smul 1 ⟨1, 0, 0⟩) =
      (⟨1, 0, 0⟩ : Vec3 ℝ) := by
    ext <;> norm_num [Vec3.add, Vec3.smul]
  rw [hadd]
  rfl

theorem normalize_A :
    normalizeBranchToRadius [⟨0, 0, 0⟩, ⟨1, 0, 0⟩] ⟨0, 0, 0⟩ 1 =
      [⟨0, 0, 0⟩, ⟨1, 0, 0⟩] := by
  have hsub : Vec3.sub (⟨1, 0, 0⟩ : Vec3 ℝ) ⟨0, 0, 0⟩ = ⟨1, 0, 0⟩ := by
    ext <;> norm_num [Vec3.sub]
  have hlsub : Vec3.length (Vec3.sub (⟨1, 0, 0⟩ : Vec3 ℝ) ⟨0, 0, 0⟩) = 1 := by
    rw [hsub]
    exact length_unit3 (by norm_num)
  have hlast : ([⟨0, 0, 0⟩, ⟨1, 0, 0⟩] : List (Vec3 ℝ)).getLast? =
      some ⟨1, 0, 0⟩ := rfl
  simp only [normalizeBranchToRadius, hlast, hlsub, List.length_cons,
    List.length_nil]
  norm_num [Vec3.add, Vec3.smul, Vec3.sub]

theorem generateBranchPoints_A :
    generateBranchPoints streamA 2
        ⟨⟨0, 0, 0⟩, ⟨1, 0, 0⟩, 1, 0, 1, some 1, none⟩ =
      ([⟨0, 0, 0⟩, ⟨1, 0, 0⟩], 5) := by
  have hlen : Vec3.length (⟨1, 0, 0⟩ : Vec3 ℝ) = 1 :=
    length_unit3 (by norm_num)
  simp only [generateBranchPoints]
  rw [normalize_of_length_one hlen]
  rw [show ((1 : ℤ).toNat) = 1 from rfl, branchIter_A]

theorem generateBranch_A :
    generateBranch streamA 2 ⟨⟨0, 0, 0⟩, ⟨1, 0, 0⟩, 1, 0, 1, some 1, none⟩ =
      (some [⟨0, 0, 0⟩, ⟨1, 0, 0⟩], 5) := by
  simp only [generateBranch, generateBranchPoints_A]
  rw [normalize_A]
  norm_num

theorem brainGraph_streamA_eval :
    generateBrainGraph constSampler constSampler demoConfig streamA 0 =
      ({ mainBranches := [[⟨0, 0, 0⟩, ⟨1, 0, 0⟩]], subBranches := [] }, 5) := by
  have hstep : demoConfig.mainRadius / ((demoConfig.segments : ℤ) : ℝ) = 1 := by
    norm_num [demoConfig]
  have hd1 : (randomDirection streamA 0).1 = ⟨1, 0, 0⟩ := by
    rw [streamA_randomDirection_zero]
  have hbr : generateBranch streamA (0 + 2)
      (mainSpawn demoConfig 1 (randomDirection streamA 0).1) =
      (some [⟨0, 0, 0⟩, ⟨1, 0, 0⟩], 5) := by
    rw [hd1]
    show generateBranch streamA 2
      ⟨⟨0, 0, 0⟩, ⟨1, 0, 0⟩, 1, 0, 1, some 1, none⟩ =
      (some [⟨0, 0, 0⟩, ⟨1, 0, 0⟩], 5)
    exact generateBranch_A
  simp only [generateBrainGraph, hstep]
  rw [show demoConfig.mainBranchCount.toNat = 1 from rfl, mainBranchLoop_succ]
  rw [hbr]
  rfl

theorem streamB_randomDirection_zero :
    randomDirection streamB 0 = (⟨0, 1, 0⟩, 2) := by
  have h0 : streamB 0 = 1/4 := by norm_num [streamB]
  have h1 : streamB 1 = 1/2 := by norm_num [streamB]
  rw [randomDirection, h0, h1]
  rw [show (1/4 : ℝ) * Real.pi * 2 = Real.pi / 2 by ring]
  norm_num [Real.arccos_zero, Real.sin_pi_div_two, Real.cos_pi_div_two]

theorem streamB_randomDirection_two :
    randomDirection streamB 2 = (⟨0, 0, -1⟩, 4) := by
  have h2 : streamB 2 = 0 := by norm_num [streamB]
  have h3 : streamB 3 = 0 := by norm_num [streamB]
  rw [randomDirection, h2, h3]
  norm_num [Real.sin_pi, Real.cos_pi, Real.sin_zero, Real.cos_zero,
    show (2 : ℝ) * 0 - 1 = -1 by norm_num, Real.arccos_neg_one]

theorem perpAxisFor_B : perpAxisFor ⟨0, 1, 0⟩ ⟨0, 0, -1⟩ = ⟨-1, 0, 0⟩ := by
  have hcross : Vec3.cross (⟨0, 1, 0⟩ : Vec3 ℝ) ⟨0, 0, -1⟩ = ⟨-1, 0, 0⟩ := by
    ext <;> norm_num [Vec3.cross]
  have hlen : Vec3.length (⟨-1, 0, 0⟩ : Vec3 ℝ) = 1 :=
    length_unit3 (by norm_num)
  simp only [perpAxisFor]
  rw [hcross, normalize_of_length_one hlen, hlen,
    if_neg (by norm_num : ¬((1 : ℝ) < 1/1000))]

theorem stepDirection_B : stepDirection streamB 0 ⟨0, 1, 0⟩ 2 = ⟨0, 1, 0⟩ := by
  have hlen : Vec3.length (⟨0, 1, 0⟩ : Vec3 ℝ) = 1 :=
    length_unit3 (by norm_num)
  unfold stepDirection
  rw [streamB_randomDirection_two]
  show Vec3.normalize (rotateAxisAngle (perpAxisFor ⟨0, 1, 0⟩ ⟨0, 0, -1⟩)
    ((streamB (2 + 2) - 1/2) * 0) ⟨0, 1, 0⟩) = ⟨0, 1, 0⟩
  rw [mul_zero, perpAxisFor_B, rotateAxisAngle_zero,
    normalize_of_length_one hlen]

theorem branchIter_B :
    branchIter streamB 0 1 1 ⟨0, 1, 0⟩ ⟨0, 0, 0⟩ 2 = ([⟨0, 1, 0⟩], 5) := by
  rw [branchIter_succ, stepDirection_B]
  have hadd : Vec3.add ⟨0, 0, 0⟩ (Vec3.smul 1 ⟨0, 1, 0⟩) =
      (⟨0, 1, 0⟩ : Vec3 ℝ) := by
    ext <;> norm_num [Vec3.add, Vec3.smul]
  rw [hadd]
  rfl

theorem normalize_B :
    normalizeBranchToRadius [⟨0, 0, 0⟩, ⟨0, 1, 0⟩] ⟨0, 0, 0⟩ 1 =
      [⟨0, 0, 0⟩, ⟨0, 1, 0⟩] := by
  have hsub : Vec3.sub (⟨0, 1, 0⟩ : Vec3 ℝ) ⟨0, 0, 0⟩ = ⟨0, 1, 0⟩ := by
    ext <;> norm_num [Vec3.sub]
  have hlsub : Vec3.length (Vec3.sub (⟨0, 1, 0⟩ : Vec3 ℝ) ⟨0, 0, 0⟩) = 1 := by
    rw [hsub]
    exact length_unit3 (by norm_num)
  have hlast : ([⟨0, 0, 0⟩, ⟨0, 1, 0⟩] : List (Vec3 ℝ)).getLast? =
      some ⟨0, 1, 0⟩ := rfl
  simp only [normalizeBranchToRadius, hlast, hlsub, List.length_cons,
    List.length_nil]
  norm_num [Vec3.add, Vec3.smul, Vec3.sub]

theorem generateBranchPoints_B :
    generateBranchPoints streamB 2
        ⟨⟨0, 0, 0⟩, ⟨0, 1, 0⟩, 1, 0, 1, some 1, none⟩ =
      ([⟨0, 0, 0⟩, ⟨0, 1, 0⟩], 5) := by
  have hlen : Vec3.length (⟨0, 1, 0⟩ : Vec3 ℝ) = 1 :=
    length_unit3 (by norm_num)
  simp only [generateBranchPoints]
  rw [normalize_of_length_one hlen]
  rw [show ((1 : ℤ).toNat) = 1 from rfl, branchIter_B]

theorem generateBranch_B :
    generateBranch streamB 2 ⟨⟨0, 0, 0⟩, ⟨0, 1, 0⟩, 1, 0, 1, some 1, none⟩ =
      (some [⟨0, 0, 0⟩, ⟨0, 1, 0⟩], 5) := by
  simp only [generateBranch, generateBranchPoints_B]
  rw [normalize_B]
  norm_num

theorem brainGraph_streamB_eval :
    generateBrainGraph constSampler constSampler demoConfig streamB 0 =
      ({ mainBranches := [[⟨0, 0, 0⟩, ⟨0, 1, 0⟩]], subBranches := [] }, 5) := by
  have hstep : demoConfig.mainRadius / ((demoConfig.segments : ℤ) : ℝ) = 1 := by
    norm_num [demoConfig]
  have hd1 : (randomDirection streamB 0).1 = ⟨0, 1, 0⟩ := by
    rw [streamB_randomDirection_zero]
  have hbr : generateBranch streamB (0 + 2)
      (mainSpawn demoConfig 1 (randomDirection streamB 0).1) =
      (some [⟨0, 0, 0⟩, ⟨0, 1, 0⟩], 5) := by
    rw [hd1]
    show generateBranch streamB 2
      ⟨⟨0, 0, 0⟩, ⟨0, 1, 0⟩, 1, 0, 1, some 1, none⟩ =
      (some [⟨0, 0, 0⟩, ⟨0, 1, 0⟩], 5)
    exact generateBranch_B
  simp only [generateBrainGraph, hstep]
  rw [show demoConfig.mainBranchCount.toNat = 1 from rfl, mainBranchLoop_succ]
  rw [hbr]
  rfl

/-- C1 counterexample: at the fixed configuration `demoConfig`, two
generation runs of `generateBrainGraph` consuming two (equally possible)
`Math.random()` draw sequences produce different graphs — the engine has no
seed input, so its output is not a deterministic function of (configuration,
seed). -/
theorem generateBrainGraph_not_seed_deterministic :
    generateBrainGraph constSampler constSampler demoConfig streamA 0 ≠
      generateBrainGraph constSampler constSampler demoConfig streamB 0 := by
  rw [brainGraph_streamA_eval, brainGraph_streamB_eval]
  intro h
  have h2 := congrArg (fun p => p.1.mainBranches) h
  norm_num [Vec3.mk.injEq] at h2

/-- Witness for the amended C1 theorem: a run with `streamA` equals a run
with a stream that agrees with `streamA` on the consumed interval `[0, 5)`
but differs beyond it. -/
theorem generateBrainGraph_deterministic_in_stream_witness :
    generateBrainGraph constSampler constSampler demoConfig streamA 0 =
      generateBrainGraph constSampler constSampler demoConfig streamA' 0 :=
  generateBrainGraph_deterministic_in_stream constSampler constSampler
    demoConfig streamA streamA' 0 (by
      intro m hm0 hmlt
      rw [brainGraph_streamA_eval] at hmlt
      have hm5 : m < 5 := hmlt
      by_cases hm1 : m = 1
      · subst hm1
        norm_num [streamA, streamA']
      · rw [show streamA m = 0 by simp [streamA, hm1],
          show streamA' m = 0 by simp [streamA', hm1, hm5]])

/-- Witness for the amended C8 theorem at the concrete configuration with
`mainBranchCount = -1`. -/
theorem generateBrainGraph_no_validation_witness :
    generateBrainGraph (fun _ _ => ⟨0, 0, 0⟩) (fun _ _ => ⟨0, 0, 0⟩)
        { mainBranchCount := -1, subBranchCount := 0, mainRadius := 1,
          maxRadius := 2, segments := 1, curvature := 0, subBranchOffset := 0,
          subBranchSegments := 1, subBranchCurvature := 0 } (fun _ => 0) 0 =
      ({ mainBranches := [], subBranches := [] }, 0) :=
  generateBrainGraph_no_validation _ _ _ _ _ (by norm_num)

end BrainSpec
